import Mathlib

/-!
Verification development for the meal-time scheduling core.

The Python source is shallowly embedded:
* strings are Lean `String`s (lists of characters);
* instants in time (`datetime`) are rationals measured in minutes, durations
  (`timedelta(minutes=d)`) are integers, so `t - timedelta(minutes=d)` is
  `t - d`;
* the `re` module is embedded as a small backtracking engine (`RE`) with
  Python semantics: leftmost match, left-priority alternation, greedy
  quantifiers, capture groups, lookahead, single-character negative
  lookbehind and word boundaries;
* Python float arithmetic on the small, exactly-representable values that
  appear here (halves from range averages, decimals from strings like
  "2.5") is modelled with rationals;
* fallible operations return `Option`.

Sections follow the source files: `meal_time/utils/step_splitter.py`,
`meal_time/services/timeline_service.py`,
`meal_time/services/validation_service.py`,
`src/meal_time_logic/services/step_time_parser_service.py`, with the
constants of `config.py`.
-/

namespace MealTime

/-! ## Python string primitives -/

/-- Python `str.isspace` characters relevant to `\s` (ASCII). -/
def isSpacePy (c : Char) : Bool :=
  c = ' ' || c = '\t' || c = '\n' || c = '\r' || c = '\x0b' || c = '\x0c'

/-- Python regex `\d`. -/
def isDigitPy (c : Char) : Bool := c.isDigit

/-- Python regex `\w` (ASCII part). -/
def isWordPy (c : Char) : Bool := c.isAlpha || c.isDigit || c = '_'

/-- Python `str.strip` on a character list: drop leading/trailing whitespace. -/
def stripChars (l : List Char) : List Char :=
  ((l.dropWhile isSpacePy).reverse.dropWhile isSpacePy).reverse

/-- Python `str.strip`. -/
def stripPy (s : String) : String := ⟨stripChars s.data⟩

/-- Python `str.lower` (ASCII). -/
def lowerPy (s : String) : String := ⟨s.data.map Char.toLower⟩

/-- `a.isPre b`: the character list `a` is a prefix of `b`. -/
def isPreOf : List Char → List Char → Bool
  | [], _ => true
  | _ :: _, [] => false
  | a :: as, b :: bs => a = b && isPreOf as bs

/-- Python `sub in s` substring containment on character lists. -/
def containsSub (sub : List Char) : List Char → Bool
  | [] => isPreOf sub []
  | c :: cs => isPreOf sub (c :: cs) || containsSub sub cs

/-- Python `sub in s` on strings. -/
def inPy (sub s : String) : Bool := containsSub sub.data s.data

/-! ## A Python-`re` style backtracking engine

Supports exactly the constructs appearing in the source patterns:
character classes, sequencing, left-priority alternation, greedy `*`, `+`
and `?`, capture groups, `(?=...)` lookahead, single-character `(?<!c)`
negative lookbehind and `\b` word boundaries.  Matching is
continuation-passing with a fuel argument (backtracking depth is bounded by
`size · (length + 2)`). -/

inductive RE : Type
  | eps : RE
  | pred : (Char → Bool) → RE
  | seq : RE → RE → RE
  | alt : RE → RE → RE
  | star : RE → RE
  | opt : RE → RE
  | group : Nat → RE → RE
  | lookahead : RE → RE
  | noPrevChar : (Char → Bool) → RE
  | wordBoundary : RE
  | endAnchor : RE

namespace RE

/-- Depth bound of a pattern for the fuel computation. -/
def size : RE → Nat
  | eps => 1
  | pred _ => 1
  | seq a b => a.size + b.size + 1
  | alt a b => a.size + b.size + 1
  | star a => a.size + 2
  | opt a => a.size + 1
  | group _ a => a.size + 1
  | lookahead a => a.size + 1
  | noPrevChar _ => 1
  | wordBoundary => 1
  | endAnchor => 1

/-- `a+` as `a a*`. -/
def plus (a : RE) : RE := seq a (star a)

/-- Sequence of several patterns. -/
def cat (l : List RE) : RE := l.foldr seq eps

/-- Left-priority alternation of several patterns (first wins). -/
def altL : List RE → RE
  | [] => eps
  | [a] => a
  | a :: as => alt a (altL as)

/-- Case-insensitive literal (all source call sites either lowercase the
text first or pass `re.IGNORECASE`; case-sensitive call sites use
`csLit`). -/
def ciLit (s : String) : RE :=
  cat (s.data.map (fun c => pred (fun d => d.toLower = c.toLower)))

/-- Case-sensitive literal. -/
def csLit (s : String) : RE :=
  cat (s.data.map (fun c => pred (fun d => d = c)))

end RE

/-- Capture store: group index ↦ matched substring, most recent first. -/
abbrev Caps := List (Nat × String)

/-- Python `match.group(i)` for `i ≥ 1` (`none` when the group did not
participate in the match). -/
def getCap (caps : Caps) (i : Nat) : Option String :=
  (caps.find? (fun p => p.1 = i)).map (fun p => p.2)

/-- Substring `s[a:b]` of a character list. -/
def sliceStr (s : List Char) (a b : Nat) : String := ⟨(s.drop a).take (b - a)⟩

/-- Core matcher: match `r` in `s` starting at `pos` with capture store
`caps`, calling the continuation `k` with the end position and captures of
each candidate; backtracks on `none`. -/
def reMatch (s : List Char) : Nat → RE → Nat → Caps →
    (Nat → Caps → Option (Nat × Caps)) → Option (Nat × Caps)
  | 0, _, _, _, _ => none
  | fuel + 1, r, pos, caps, k =>
    match r with
    | .eps => k pos caps
    | .pred p =>
      match s.get? pos with
      | some c => if p c then k (pos + 1) caps else none
      | none => none
    | .seq a b =>
      reMatch s fuel a pos caps (fun p' c' => reMatch s fuel b p' c' k)
    | .alt a b =>
      (reMatch s fuel a pos caps k).orElse (fun _ => reMatch s fuel b pos caps k)
    | .star a =>
      (reMatch s fuel a pos caps (fun p' c' =>
          if p' = pos then none else reMatch s fuel (.star a) p' c' k)).orElse
        (fun _ => k pos caps)
    | .opt a =>
      (reMatch s fuel a pos caps k).orElse (fun _ => k pos caps)
    | .group i a =>
      reMatch s fuel a pos caps
        (fun p' c' => k p' ((i, sliceStr s pos p') :: c'))
    | .lookahead a =>
      match reMatch s fuel a pos caps (fun p' c' => some (p', c')) with
      | some (_, c') => k pos c'
      | none => none
    | .noPrevChar p =>
      match pos with
      | 0 => k pos caps
      | q + 1 =>
        match s.get? q with
        | some c => if p c then none else k pos caps
        | none => k pos caps
    | .wordBoundary =>
      let left := match pos with
        | 0 => false
        | q + 1 => match s.get? q with | some c => isWordPy c | none => false
      let right := match s.get? pos with | some c => isWordPy c | none => false
      if left ≠ right then k pos caps else none
    | .endAnchor =>
      -- Python `$`: end of string, or just before a final newline.
      if pos = s.length ∨ (pos + 1 = s.length ∧ s.get? pos = some '\n') then
        k pos caps
      else none

/-- Fuel sufficient for the nesting depth of any match of `r` in `s`. -/
def reFuel (r : RE) (s : List Char) : Nat := (r.size + 2) * (s.length + 2)

/-- A match record: start, end, captures. -/
structure REMatch where
  startPos : Nat
  endPos : Nat
  caps : Caps
deriving Repr, DecidableEq

/-- Attempt an anchored match of `r` at position `pos` (Python
`re.match` when `pos = 0`). -/
def reMatchAt (r : RE) (s : List Char) (pos : Nat) : Option REMatch :=
  (reMatch s (reFuel r s) r pos [] (fun p c => some (p, c))).map
    (fun pc => ⟨pos, pc.1, pc.2⟩)

/-- Leftmost match of `r` in `s` at position `≥ pos` (Python `re.search`
semantics). -/
def reSearchFrom (r : RE) (s : List Char) : Nat → Nat → Option REMatch
  | _, 0 => none
  | pos, fuel + 1 =>
    if pos > s.length then none
    else match reMatchAt r s pos with
      | some m => some m
      | none => reSearchFrom r s (pos + 1) fuel

/-- Python `re.search`. -/
def reSearch (r : RE) (s : List Char) : Option REMatch :=
  reSearchFrom r s 0 (s.length + 2)

/-- All non-overlapping matches from left to right (Python `re.finditer`;
an empty match advances the scan position by one). -/
def reFindIter (r : RE) (s : List Char) : Nat → Nat → List REMatch
  | _, 0 => []
  | pos, fuel + 1 =>
    match reSearchFrom r s pos (s.length + 2) with
    | none => []
    | some m =>
      m :: reFindIter r s (if m.endPos > m.startPos then m.endPos else m.startPos + 1) fuel

/-- Python `re.finditer` (as a list). -/
def reFindAll (r : RE) (s : List Char) : List REMatch :=
  reFindIter r s 0 (s.length + 2)

/-- Matched text `match.group(0)`. -/
def matchedText (s : List Char) (m : REMatch) : String :=
  sliceStr s m.startPos m.endPos

/-- Python `re.split` where the whole pattern is wrapped in one capture
group: pieces of text interleaved with the matched separators. -/
def reSplitKeep (r : RE) (s : List Char) : List String :=
  let ms := reFindAll r s
  let rec go (pos : Nat) : List REMatch → List String
    | [] => [sliceStr s pos s.length]
    | m :: rest =>
      sliceStr s pos m.startPos :: matchedText s m :: go m.endPos rest
  go 0 ms

/-- Python `re.split` without captures: the pieces between matches. -/
def reSplitDrop (r : RE) (s : List Char) : List String :=
  let ms := reFindAll r s
  let rec go (pos : Nat) : List REMatch → List String
    | [] => [sliceStr s pos s.length]
    | m :: rest => sliceStr s pos m.startPos :: go m.endPos rest
  go 0 ms

/-- Python `re.sub` with a constant replacement string. -/
def reSub (r : RE) (repl : String) (s : List Char) : String :=
  let ms := reFindAll r s
  let rec go (pos : Nat) : List REMatch → List Char
    | [] => (s.drop pos).take (s.length - pos)
    | m :: rest =>
      ((s.drop pos).take (m.startPos - pos)) ++ repl.data ++ go m.endPos rest
  ⟨go 0 ms⟩

/-! ## Numeric helpers for Python `int`/`float` on values appearing here -/

/-- Value of a digit string (helper for Python `int`/`float` applied to
regex groups, which are always digit strings here). -/
def digitsToNat (l : List Char) : Nat :=
  l.foldl (fun acc c => if c.isDigit then acc * 10 + (c.toNat - 48) else acc) 0

/-- Floor of a rational as an integer. -/
def ratFloor (q : ℚ) : Int := Int.fdiv q.num q.den

/-- Python `int()` applied to a float: truncation toward zero. -/
def pyInt (q : ℚ) : Int := if q < 0 then -(ratFloor (-q)) else ratFloor q

/-- Python `float()` of a string shaped `\d+(\.\d+)?`. -/
def parsePyFloat (s : String) : ℚ :=
  let ip := s.data.takeWhile (fun c => c ≠ '.')
  let fp := (s.data.dropWhile (fun c => c ≠ '.')).drop 1
  (digitsToNat ip : ℚ) + (digitsToNat fp : ℚ) / ((10 : ℚ) ^ fp.length)

/-- Python `int()` of a digit string. -/
def parsePyIntStr (s : String) : Int := (digitsToNat s.data : Int)

/-- Python truthiness of an optional string (`None` and `""` are falsy). -/
def pyTruthyStr : Option String → Bool
  | none => false
  | some s => s ≠ ""

/-! ## `meal_time/utils/step_splitter.py` -/

/-- `SplitStep`: a single step with its associated time. -/
structure SplitStep where
  instruction : String
  time_minutes : Option Int := none
  time_text : Option String := none
deriving Repr, DecidableEq

namespace StepSplitter

open RE

private def sp : RE := .pred isSpacePy
private def dig : RE := .pred isDigitPy

/-- `minutes|minute|mins|min|hours|hour|hrs|hr` (source order). -/
def anyUnits : RE := altL [ciLit "minutes", ciLit "minute", ciLit "mins",
  ciLit "min", ciLit "hours", ciLit "hour", ciLit "hrs", ciLit "hr"]

/-- `hours|hour|hrs|hr`. -/
def hourUnits : RE := altL [ciLit "hours", ciLit "hour", ciLit "hrs", ciLit "hr"]

/-- `minutes|minute|mins|min`. -/
def minuteUnits : RE := altL [ciLit "minutes", ciLit "minute", ciLit "mins", ciLit "min"]

/-- `seconds|second|secs|sec`. -/
def secondUnits : RE := altL [ciLit "seconds", ciLit "second", ciLit "secs", ciLit "sec"]

/-- `\d+(?:\.\d+)?` wrapped in capture group `i`. -/
def numGroup (i : Nat) : RE :=
  .group i (cat [plus dig, .opt (cat [csLit ".", plus dig])])

/-- One entry of `TIME_PATTERNS`: the pattern, its number of groups, and
whether its source text contains `about|around|approximately|roughly`
(the literal substring test the Python code performs on the pattern). -/
structure TimePat where
  re : RE
  nGroups : Nat
  isApprox : Bool

/-- `r'(\d+)\s*[-–]\s*(\d+)\s*(minutes|minute|mins|min|hours|hour|hrs|hr)'` -/
def patRange : TimePat :=
  ⟨cat [.group 1 (plus dig), star sp, .pred (fun c => c = '-' || c = '–'),
        star sp, .group 2 (plus dig), star sp, .group 3 anyUnits], 3, false⟩

/-- `r'(about|around|approximately|roughly)\s+(\d+(?:\.\d+)?)\s*(units)'` -/
def patApprox : TimePat :=
  ⟨cat [.group 1 (altL [ciLit "about", ciLit "around", ciLit "approximately", ciLit "roughly"]),
        plus sp, numGroup 2, star sp, .group 3 anyUnits], 3, true⟩

/-- `r'(\d+(?:\.\d+)?)\s*(hours|hour|hrs|hr)\s+(\d+)\s*(minutes|minute|mins|min)'` -/
def patCompound : TimePat :=
  ⟨cat [numGroup 1, star sp, .group 2 hourUnits, plus sp,
        .group 3 (plus dig), star sp, .group 4 minuteUnits], 4, false⟩

/-- `r'(?<!\-)(\d+(?:\.\d+)?)\s*(hours|hour|hrs|hr)\s*(?:and\s*)?(?:(\d+)\s*(minutes|minute|mins|min))?'` -/
def patHourOptMin : TimePat :=
  ⟨cat [.noPrevChar (fun c => c = '-'), numGroup 1, star sp, .group 2 hourUnits,
        star sp, .opt (cat [ciLit "and", star sp]),
        .opt (cat [.group 3 (plus dig), star sp, .group 4 minuteUnits])], 4, false⟩

/-- `r'(?<!\-)(\d+(?:\.\d+)?)\s*(minutes|minute|mins|min)'` -/
def patMinutes : TimePat :=
  ⟨cat [.noPrevChar (fun c => c = '-'), numGroup 1, star sp, .group 2 minuteUnits], 2, false⟩

/-- `r'(?<!\-)(\d+(?:\.\d+)?)\s*(seconds|second|secs|sec)'` -/
def patSeconds : TimePat :=
  ⟨cat [.noPrevChar (fun c => c = '-'), numGroup 1, star sp, .group 2 secondUnits], 2, false⟩

/-- `TIME_PATTERNS` in source order. -/
def TIME_PATTERNS : List TimePat :=
  [patRange, patApprox, patCompound, patHourOptMin, patMinutes, patSeconds]

/-- `SPLIT_CONJUNCTIONS` in source order. -/
def SPLIT_CONJUNCTIONS : List RE :=
  [ cat [.wordBoundary, ciLit "then", .wordBoundary],
    cat [.wordBoundary, ciLit "and", plus sp, ciLit "then", .wordBoundary],
    cat [.wordBoundary, ciLit "next", .wordBoundary],
    cat [.wordBoundary, ciLit "after", plus sp, altL [ciLit "that", ciLit "this"], .wordBoundary],
    cat [.wordBoundary, ciLit "followed", plus sp, ciLit "by", .wordBoundary],
    cat [.wordBoundary, ciLit "once", plus sp,
         altL [ciLit "done", ciLit "finished", ciLit "complete"], .wordBoundary],
    cat [.wordBoundary, ciLit "when", plus sp,
         altL [ciLit "done", ciLit "finished", ciLit "complete"], .wordBoundary],
    cat [.wordBoundary, ciLit "immediately", plus sp,
         altL [ciLit "after", ciLit "before"], .wordBoundary],
    cat [.wordBoundary, ciLit "meanwhile", .wordBoundary],
    cat [.wordBoundary, ciLit "at", plus sp, ciLit "the", plus sp, ciLit "same",
         plus sp, ciLit "time", .wordBoundary],
    cat [.wordBoundary, ciLit "while", plus sp, altL [ciLit "that", ciLit "this", ciLit "it"],
         .opt (cat [plus sp, ciLit "is"]), plus sp,
         altL [ciLit "cooking", ciLit "baking", ciLit "simmering"], .wordBoundary],
    cat [.wordBoundary, ciLit "and", plus sp,
         altL [ciLit "serve", ciLit "remove", ciLit "add", ciLit "season",
               ciLit "garnish", ciLit "cool", ciLit "let", ciLit "allow"], .wordBoundary],
    cat [.pred (fun c => c = '.' || c = ';'), star sp] ]

/-- `match.groups()` of a match of a pattern with `n` groups, 0-indexed as
in the Python tuple. -/
def groupsOf (m : REMatch) (n : Nat) : Nat → Option String :=
  fun i => if i < n then getCap m.caps (i + 1) else none

/-- The per-match branch cascade of `extract_time_from_text` (the body of
the `if match:` block).  Returns `none` when no branch of the `elif`
cascade fires, in which case the Python loop continues with the next
pattern. -/
def extractBranches (tp : TimePat) (timeText : String) (g : Nat → Option String) :
    Option (Int × String) :=
  if inPy "-" timeText || inPy "–" timeText then
    -- range branch: average, then unit conversion, truncated
    let start := parsePyIntStr ((g 0).getD "")
    let stop := parsePyIntStr ((g 1).getD "")
    let unit := lowerPy ((g 2).getD "")
    let avg : ℚ := ((start : ℚ) + (stop : ℚ)) / 2
    let tm := if inPy "hour" unit || inPy "hr" unit then pyInt (avg * 60) else pyInt avg
    some (tm, timeText)
  else if tp.isApprox then
    -- approximate branch (note: falls through to 0 for "mins"/"min",
    -- since Python tests `'minute' in unit`)
    let v := parsePyFloat ((g 1).getD "")
    let unit := lowerPy ((g 2).getD "")
    let tm : Int :=
      if inPy "hour" unit then pyInt (v * 60)
      else if inPy "minute" unit then pyInt v
      else if inPy "second" unit then max 1 (pyInt ((v : ℚ) / 60))
      else 0
    some (tm, timeText)
  else if tp.nGroups ≥ 4 && pyTruthyStr (g 2) && inPy "hour" ((g 1).getD "") then
    -- compound hour+minute branch
    let hours := parsePyFloat ((g 0).getD "")
    let minutes := parsePyFloat ((g 2).getD "")
    some (pyInt (hours * 60 + minutes), timeText)
  else if inPy "minute" (lowerPy ((g 1).getD "")) || inPy "min" (lowerPy ((g 1).getD "")) then
    some (pyInt (parsePyFloat ((g 0).getD "")), timeText)
  else if inPy "hour" (lowerPy ((g 1).getD "")) || inPy "hr" (lowerPy ((g 1).getD "")) then
    let hours := parsePyFloat ((g 0).getD "")
    let minutes : ℚ :=
      if tp.nGroups > 2 && pyTruthyStr (g 2) then parsePyFloat ((g 2).getD "") else 0
    some (pyInt (hours * 60 + minutes), timeText)
  else if inPy "second" (lowerPy ((g 1).getD "")) || inPy "sec" (lowerPy ((g 1).getD "")) then
    let seconds := pyInt (parsePyFloat ((g 0).getD ""))
    some (max 1 (Int.fdiv seconds 60), timeText)
  else
    none

/-- Loop of `extract_time_from_text` over `TIME_PATTERNS`. -/
def extractLoop (textLower : String) : List TimePat → Option (Int × String)
  | [] => none
  | tp :: rest =>
    match reSearch tp.re textLower.data with
    | none => extractLoop textLower rest
    | some m =>
      match extractBranches tp (matchedText textLower.data m) (groupsOf m tp.nGroups) with
      | some r => some r
      | none => extractLoop textLower rest

/-- `StepSplitter.extract_time_from_text`: extract a time value from text,
returning `(minutes, original_text)`, or `(none, none)` if no time found. -/
def extract_time_from_text (text : String) : Option Int × Option String :=
  let textLower := stripPy (lowerPy text)
  match extractLoop textLower TIME_PATTERNS with
  | none => (none, none)
  | some (tm, tt) => (some tm, some tt)

/-- `StepSplitter.has_multiple_time_instructions`. -/
def has_multiple_time_instructions (step_text : String) : Bool :=
  let time_count :=
    (TIME_PATTERNS.map (fun tp => (reFindAll tp.re (lowerPy step_text).data).length)).sum
  let conjunction_found :=
    SPLIT_CONJUNCTIONS.any (fun c => (reSearch c (lowerPy step_text).data).isSome)
  time_count > 1 || (time_count ≥ 1 && conjunction_found)

/-- `StepSplitter._clean_instruction_text` (the `time_text` parameter is
unused in the source as well). -/
def clean_instruction_text (text0 : String) (_time_text : Option String) : String :=
  let text := reSub (plus sp) " " (stripPy text0).data
  let leadConj : RE :=
    cat [.group 1 (altL [ciLit "then", ciLit "and then", ciLit "next",
                         ciLit "after that", ciLit "followed by"]), plus sp]
  -- `re.sub(r'^(...)\s+', '', text)`: the anchor restricts to position 0
  let text : String :=
    match reMatchAt leadConj text.data 0 with
    | some m => ⟨text.data.drop m.endPos⟩
    | none => text
  let text := reSub (cat [.pred (fun c => c = ',' || c = ';'), star sp,
                          csLit ".", star sp, .endAnchor]) "." text.data
  let text := reSub (cat [.pred (fun c => c = ',' || c = ';'), star sp, .endAnchor]) "." text.data
  let text : String :=
    match text.data with
    | [] => text
    | c :: cs => if c.isLower then ⟨c.toUpper :: cs⟩ else text
  if text ≠ "" && !(text.data.getLastD ' ' ∈ ['.', '!', '?']) then
    text ++ "."
  else text

/-- The conjunction-aware reconstruction loop inside `split_step`: walk the
`re.split` pieces, flushing the accumulated text at each piece that
`re.match`es the conjunction. -/
def reconstructParts (conj : RE) : List String → String → List String → List String
  | [], current, acc =>
    if stripPy current ≠ "" then acc ++ [stripPy current] else acc
  | part :: rest, current, acc =>
    if (reMatchAt conj (stripPy part).data 0).isSome then
      if stripPy current ≠ "" then
        reconstructParts conj rest "" (acc ++ [stripPy current])
      else
        reconstructParts conj rest "" acc
    else
      reconstructParts conj rest (current ++ part) acc

/-- The `for conjunction in SPLIT_CONJUNCTIONS` loop of `split_step`
(breaks after the first conjunction that matches). -/
def conjSplitLoop (remaining_text : String) : List RE → List String
  | [] => []
  | conj :: rest =>
    if (reSearch conj remaining_text.data).isSome then
      reconstructParts conj (reSplitKeep conj remaining_text.data) "" []
    else
      conjSplitLoop remaining_text rest

/-- A single-step result carrying the whole text and its extracted time
(the three identical fallback returns in `split_step`). -/
def singleStepOf (step_text : String) : List SplitStep :=
  [⟨step_text, (extract_time_from_text step_text).1, (extract_time_from_text step_text).2⟩]

/-- The per-part processing loop of `split_step`: strip, extract, clean,
keep parts whose cleaned instruction is longer than 3 characters. -/
def processParts (parts : List String) : List SplitStep :=
  parts.foldl (fun acc part0 =>
    let part := stripPy part0
    if part = "" then acc
    else
      let tm := (extract_time_from_text part).1
      let tt := (extract_time_from_text part).2
      let instruction := clean_instruction_text part tt
      if (stripPy instruction).length > 3 then
        acc ++ [⟨instruction, tm, tt⟩]
      else acc) []

/-- `StepSplitter.split_step`: split a step text into multiple steps if it
contains multiple time instructions. -/
def split_step (step_text0 : String) : List SplitStep :=
  let step_text := stripPy step_text0
  if ¬ has_multiple_time_instructions step_text then
    singleStepOf step_text
  else
    let parts := conjSplitLoop step_text SPLIT_CONJUNCTIONS
    -- fall back to sentence punctuation
    let parts :=
      if parts = [] then
        ((reSplitDrop (cat [.pred (fun c => c = '.' || c = ';'), star sp]) step_text.data).map
            stripPy).filter (fun p => p ≠ "")
      else parts
    -- fall back to commas preceding a "<word> for <number>" pattern
    let parts :=
      if parts.length ≤ 1 then
        ((reSplitDrop (cat [csLit ",", star sp,
            .lookahead (cat [plus (.pred isWordPy), plus sp, csLit "for", plus sp,
                             plus dig])]) step_text.data).map
            stripPy).filter (fun p => p ≠ "")
      else parts
    if parts.length ≤ 1 then
      singleStepOf step_text
    else
      let split_steps := processParts parts
      if split_steps = [] then
        singleStepOf step_text
      else
        split_steps

/-- `StepSplitter.split_recipe_steps`: flatten a sequence of raw
instructions through `split_step`, with a fixed 5-minute fallback for
segments without an extracted duration. -/
def split_recipe_steps (steps : List String) : List String × List Int :=
  steps.foldl (fun acc step =>
    (split_step step).foldl (fun acc2 ss =>
      (acc2.1 ++ [ss.instruction], acc2.2 ++ [ss.time_minutes.getD 5])) acc)
    ([], [])

end StepSplitter

/-! ## `config.py` constants used by the services -/

namespace Config

def RECIPE_COLORS : List String := ["🔴", "🟡", "🟢", "🔵", "🟣", "🟠", "⚫", "⚪"]

def PREP_KEYWORDS : List String :=
  ["chop", "dice", "slice", "mince", "prep", "cut", "wash", "peel", "measure"]

def COOKING_KEYWORDS : List String :=
  ["cook", "bake", "fry", "boil", "simmer", "sauté", "roast", "grill", "heat"]

def MULTITASK_KEYWORDS : List String :=
  ["bake", "simmer", "marinate", "chill", "rest", "rise", "cool"]

def DEFAULT_STEP_TIME : Int := 5

def MIN_STEP_TIME : Int := 1

def MAX_STEP_TIME : Int := 180

def MIN_PREP_TIME : ℚ := 10

/-- The Python float literal `0.8` (modelled by its decimal value). -/
def WARNING_THRESHOLD : ℚ := 4 / 5

end Config

/-! ## `meal_time/models/recipe.py` -/

/-- `Recipe` dataclass (times in minutes; `None` modelled as `none`). -/
structure Recipe where
  name : String
  ingredients : List String := []
  steps : List String := []
  prep_time : Option Int := none
  cook_time : Option Int := none
  total_time : Option Int := none
  step_times : List Int := []
deriving Repr, DecidableEq

/-! ## `meal_time/services/timeline_service.py` -/

/-- `TimelineStep` dataclass.  Instants are rationals in minutes; the
`time_gap` float (seconds divided by 60) is the rational difference in
minutes. -/
structure TimelineStep where
  text : String
  duration : Int
  start_time : ℚ
  end_time : ℚ
  recipe_name : String
  step_number : Nat
  recipe_color : String
  is_prep : Bool := false
  is_cooking : Bool := false
  can_multitask : Bool := false
  order : Nat := 0
  time_gap : ℚ := 0
deriving Repr, DecidableEq

namespace TimelineService

/-- `any(keyword in step_text.lower() for keyword in keywords)`. -/
def keywordIn (step_text : String) (keywords : List String) : Bool :=
  keywords.any (fun kw => inPy kw (lowerPy step_text))

/-- `TimelineService._is_prep_step`. -/
def is_prep_step (step_text : String) : Bool := keywordIn step_text Config.PREP_KEYWORDS

/-- `TimelineService._is_cooking_step`. -/
def is_cooking_step (step_text : String) : Bool := keywordIn step_text Config.COOKING_KEYWORDS

/-- `TimelineService._can_multitask`. -/
def can_multitask_step (step_text : String) : Bool := keywordIn step_text Config.MULTITASK_KEYWORDS

/-- The backward walk of `_process_single_recipe` over
`reversed(list(zip(recipe.steps, recipe.step_times)))`, carrying the loop
index `i` and `current_end_time`; the list is produced in walk order (last
recipe step first), matching `steps.append`. -/
def backFill (recipe_name : String) (total : Nat) (recipe_color : String) :
    List (String × Int) → Nat → ℚ → List TimelineStep
  | [], _, _ => []
  | (step_text, duration) :: rest, i, current_end_time =>
    let step_number := total - i
    let start_time := current_end_time - (duration : ℚ)
    { text := step_text, duration := duration, start_time := start_time,
      end_time := current_end_time, recipe_name := recipe_name,
      step_number := step_number, recipe_color := recipe_color,
      is_prep := is_prep_step step_text, is_cooking := is_cooking_step step_text,
      can_multitask := can_multitask_step step_text }
      :: backFill recipe_name total recipe_color rest (i + 1) start_time

/-- `TimelineService._process_single_recipe`. -/
def process_single_recipe (recipe : Recipe) (target_time : ℚ) (color_index : Nat) :
    List TimelineStep :=
  if recipe.steps = [] || recipe.step_times = [] then []
  else if recipe.steps.length ≠ recipe.step_times.length then []
  else
    let recipe_color :=
      Config.RECIPE_COLORS.getD (color_index % Config.RECIPE_COLORS.length) ""
    (backFill recipe.name recipe.steps.length recipe_color
      ((recipe.steps.zip recipe.step_times).reverse) 0 target_time).reverse

/-- Stable insertion of `x` after every element whose start time is `≤`
its own (so equal keys keep their original relative order, as Python
`sorted` guarantees). -/
def insertByStart (x : TimelineStep) : List TimelineStep → List TimelineStep
  | [] => [x]
  | y :: ys =>
    if y.start_time ≤ x.start_time then y :: insertByStart x ys else x :: y :: ys

/-- `sorted(all_steps, key=lambda x: x.start_time)` (a stable sort). -/
def sortByStart (l : List TimelineStep) : List TimelineStep :=
  l.foldl (fun acc x => insertByStart x acc) []

/-- The sort key order of the merge. -/
def startLE (a b : TimelineStep) : Prop := a.start_time ≤ b.start_time

/-- One iteration of the `_add_timeline_metadata` loop: set the 1-based
`order`, and for `i > 0` the gap to the previous step in minutes. -/
def metaStep (i : Nat) (prev : Option TimelineStep) (step : TimelineStep) : TimelineStep :=
  let s1 := { step with order := i + 1 }
  match i, prev with
  | _ + 1, some prev_step => { s1 with time_gap := s1.start_time - prev_step.end_time }
  | _, _ => s1

/-- `TimelineService._add_timeline_metadata` (the `prev` argument is
`steps[i-1]` after its own mutation, absent for `i = 0`). -/
def add_timeline_metadata : Nat → Option TimelineStep → List TimelineStep → List TimelineStep
  | _, _, [] => []
  | i, prev, step :: rest =>
    let s2 := metaStep i prev step
    s2 :: add_timeline_metadata (i + 1) (some s2) rest

/-- The `for idx, recipe in enumerate(recipes)` accumulation loop of
`generate_timeline`. -/
def allRecipeSteps (recipes : List Recipe) (target_time : ℚ) : List TimelineStep :=
  (recipes.enum).foldl
    (fun acc p => acc ++ process_single_recipe p.2 target_time p.1) []

/-- `TimelineService.generate_timeline`. -/
def generate_timeline (recipes : List Recipe) (target_time : ℚ) : List TimelineStep :=
  if recipes = [] then []
  else
    let all_steps := allRecipeSteps recipes target_time
    add_timeline_metadata 0 none (sortByStart all_steps)

/-- Erase the fields `_add_timeline_metadata` writes (`order` and
`time_gap`), for stating which data the merge step leaves untouched. -/
def stripMeta (s : TimelineStep) : TimelineStep := { s with order := 0, time_gap := 0 }

/-- An issue reported by `validate_timeline`; the payload is the data the
source interpolates into the message string. -/
inductive TimelineIssue : Type
  | past_start_time (minutes_past : ℚ)
  | overlapping_active_steps (recipe1 recipe2 : String)
deriving Repr, DecidableEq

/-- The `severity` field of an issue. -/
def issueSeverity : TimelineIssue → String
  | .past_start_time _ => "error"
  | .overlapping_active_steps _ _ => "warning"

/-- `min(step.start_time for step in steps)` (meaningful for non-empty
input). -/
def earliestStart : List TimelineStep → ℚ
  | [] => 0
  | s :: rest => rest.foldl (fun m x => min m x.start_time) s.start_time

/-- The pair condition of the overlap check: intersecting `[start, end)`
intervals and different recipe names. -/
def overlapPred (step1 step2 : TimelineStep) : Bool :=
  step1.start_time < step2.end_time && step2.start_time < step1.end_time &&
    step1.recipe_name ≠ step2.recipe_name

def overlapIssues : List TimelineStep → List TimelineIssue
  | [] => []
  | step1 :: rest =>
    (rest.filter (overlapPred step1)).map
      (fun step2 => .overlapping_active_steps step1.recipe_name step2.recipe_name)
    ++ overlapIssues rest

/-- Result of `validate_timeline`. -/
structure TimelineValidation where
  valid : Bool
  issues : List TimelineIssue
deriving Repr, DecidableEq

/-- `TimelineService.validate_timeline`. -/
def validate_timeline (steps : List TimelineStep) (current_time : ℚ) : TimelineValidation :=
  if steps = [] then ⟨true, []⟩
  else
    let earliest_start := earliestStart steps
    let issues :=
      if earliest_start ≤ current_time then
        [TimelineIssue.past_start_time (current_time - earliest_start)]
      else []
    let active_cooking_steps := steps.filter (fun s => s.is_cooking && !s.can_multitask)
    let issues := issues ++ overlapIssues active_cooking_steps
    ⟨(issues.filter (fun i => issueSeverity i = "error")).length = 0, issues⟩

end TimelineService

/-! ## `meal_time/services/validation_service.py` -/

namespace ValidationService

/-- Python truthiness of an `Optional[int]` (`None` and `0` are falsy). -/
def truthyOptInt : Option Int → Bool
  | none => false
  | some n => n ≠ 0

/-- `ValidationService.estimate_total_time_needed`: the maximum over
recipes of (total time if set, else prep+cook if both set, else the sum of
step durations). -/
def estimate_total_time_needed (recipes : List Recipe) : Int :=
  recipes.foldl (fun max_total_time recipe =>
    if truthyOptInt recipe.total_time then
      max max_total_time (recipe.total_time.getD 0)
    else if truthyOptInt recipe.prep_time && truthyOptInt recipe.cook_time then
      max max_total_time (recipe.prep_time.getD 0 + recipe.cook_time.getD 0)
    else if recipe.step_times ≠ [] then
      max max_total_time recipe.step_times.sum
    else max_total_time) 0

/-- An entry of the `errors`/`warnings` lists of
`validate_timeline_feasibility`; the payload of `needMoreMinutes` is the
shortage interpolated into the message. -/
inductive FeasibilityMsg : Type
  | needMoreMinutes (shortage : ℚ)
  | veryTight
deriving Repr, DecidableEq

/-- Result of `validate_timeline_feasibility` (`time_available` is stored
through Python `int()`, i.e. truncation toward zero). -/
structure FeasibilityResult where
  feasible : Bool
  warnings : List FeasibilityMsg
  errors : List FeasibilityMsg
  time_needed : Int
  time_available : Int
deriving Repr, DecidableEq

/-- `ValidationService.validate_timeline_feasibility`. -/
def validate_timeline_feasibility (recipes : List Recipe) (target_time current_time : ℚ) :
    FeasibilityResult :=
  let time_available : ℚ := target_time - current_time
  let time_needed := estimate_total_time_needed recipes
  let base : FeasibilityResult :=
    { feasible := true, warnings := [], errors := [],
      time_needed := time_needed, time_available := pyInt time_available }
  if (time_needed : ℚ) > time_available then
    { base with
        feasible := false,
        errors := [.needMoreMinutes ((time_needed : ℚ) - time_available)] }
  else if (time_needed : ℚ) > time_available * Config.WARNING_THRESHOLD then
    { base with warnings := [.veryTight] }
  else base

/-- An entry of the `errors`/`warnings` lists of `validate_target_time`
(one constructor per message string of the source). -/
inductive TargetIssue : Type
  | must_be_in_future
  | very_tight_timing
  | more_than_24_hours_away
deriving Repr, DecidableEq

/-- Result of `validate_target_time`. -/
structure TargetTimeResult where
  valid : Bool
  warnings : List TargetIssue
  errors : List TargetIssue
deriving Repr, DecidableEq

/-- `ValidationService.validate_target_time`. -/
def validate_target_time (target_time current_time : ℚ) : TargetTimeResult :=
  if target_time ≤ current_time then
    { valid := false, warnings := [], errors := [.must_be_in_future] }
  else
    let time_diff := target_time - current_time
    let warnings :=
      (if time_diff < Config.MIN_PREP_TIME then [TargetIssue.very_tight_timing] else []) ++
      (if time_diff > 24 * 60 then [TargetIssue.more_than_24_hours_away] else [])
    { valid := true, warnings := warnings, errors := [] }

end ValidationService

/-! ## `src/meal_time_logic/services/step_time_parser_service.py`

The duration predictor (`StepTimePredictor.predict`) is an external
collaborator; these definitions are parameterised by a `predict`
function. -/

/-- `ParsedStep` dataclass. -/
structure ParsedStep where
  text : String
  duration_minutes : Option Int
  original_text : String
  confidence : String
  time_phrases : List String := []
deriving Repr, DecidableEq

namespace StepTimeSvc

open RE

private def sp : RE := .pred isSpacePy
private def dig : RE := .pred isDigitPy

/-- A unit word with optional plural `s`, e.g. `minutes?`. -/
def optS (u : String) : RE := cat [ciLit u, .opt (ciLit "s")]

/-- `minutes?|mins?|hours?|hrs?|seconds?|secs?`. -/
def allUnits : RE :=
  altL [optS "minute", optS "min", optS "hour", optS "hr", optS "second", optS "sec"]

/-- `minutes?|mins?|hours?|hrs?`. -/
def minHrUnits : RE := altL [optS "minute", optS "min", optS "hour", optS "hr"]

/-- `\d+(?:\.\d+)?` in capture group `i`. -/
def numGroup (i : Nat) : RE :=
  .group i (cat [plus dig, .opt (cat [csLit ".", plus dig])])

/-- One entry of `time_patterns` with its group count. -/
structure ParsePat where
  re : RE
  nGroups : Nat

/-- `r'(\d+(?:\.\d+)?)\s*(minutes?|mins?|hours?|hrs?|seconds?|secs?)'` -/
def spStandard : ParsePat := ⟨cat [numGroup 1, star sp, .group 2 allUnits], 2⟩

/-- `r'(\d+(?:\.\d+)?)\s*[-–—]\s*(\d+(?:\.\d+)?)\s*(units)'` -/
def spRange : ParsePat :=
  ⟨cat [numGroup 1, star sp, .pred (fun c => c = '-' || c = '–' || c = '—'),
        star sp, numGroup 2, star sp, .group 3 allUnits], 3⟩

/-- `r'(\d+\/\d+|\d+½|\d+¼|\d+¾)\s*(minutes?|mins?|hours?|hrs?)'` -/
def spFraction : ParsePat :=
  ⟨cat [.group 1 (altL
          [cat [plus dig, csLit "/", plus dig],
           cat [plus dig, csLit "½"],
           cat [plus dig, csLit "¼"],
           cat [plus dig, csLit "¾"]]),
        star sp, .group 2 minHrUnits], 2⟩

/-- `r'(?:about|approximately|roughly|around)\s+(\d+(?:\.\d+)?)\s*(units)'` -/
def spApprox : ParsePat :=
  ⟨cat [altL [ciLit "about", ciLit "approximately", ciLit "roughly", ciLit "around"],
        plus sp, numGroup 1, star sp, .group 2 minHrUnits], 2⟩

/-- `r'(?:cook|bake|simmer|boil)\s+until\s+(?:golden|done|tender|cooked|set)'` -/
def spUntil : ParsePat :=
  ⟨cat [altL [ciLit "cook", ciLit "bake", ciLit "simmer", ciLit "boil"], plus sp,
        ciLit "until", plus sp,
        altL [ciLit "golden", ciLit "done", ciLit "tender", ciLit "cooked", ciLit "set"]], 0⟩

/-- `self.time_patterns` in source order. -/
def timePatterns : List ParsePat :=
  [spStandard, spRange, spFraction, spApprox, spUntil]

/-- `self.unit_conversions` (minutes per unit; missing keys default to 1
via `.get(unit, 1)`). -/
def unitConversions (u : String) : ℚ :=
  if u = "second" || u = "seconds" || u = "sec" || u = "secs" then (1 : ℚ) / 60
  else if u = "minute" || u = "minutes" || u = "min" || u = "mins" then 1
  else if u = "hour" || u = "hours" || u = "hr" || u = "hrs" then 60
  else 1

/-- Python `round()`: round half to even, as used in
`int(round(minutes))`. -/
def pyRound (q : ℚ) : Int :=
  let f := ratFloor q
  let r := q - (f : ℚ)
  if r > 1 / 2 then f + 1
  else if r < 1 / 2 then f
  else if f % 2 = 0 then f else f + 1

/-- `StepTimeParser._parse_time_value`: parse a value handling the
fraction forms `a/b`, `n½`, `n¼`, `n¾`.  A fraction with a zero
denominator makes `float(parts[0]) / float(parts[1])` raise
`ZeroDivisionError`, modelled as `none` (the groups fed to this function
are digit-led matches of the patterns, so `float` itself cannot raise
here). -/
def parse_time_value (time_str0 : String) : Option ℚ :=
  let time_str := stripPy time_str0
  if inPy "/" time_str then
    -- Python `time_str.split('/')`: parts[0] before the first slash,
    -- parts[1] between the first and second
    let p0 := time_str.data.takeWhile (fun c => c ≠ '/')
    let p1 := ((time_str.data.dropWhile (fun c => c ≠ '/')).drop 1).takeWhile (fun c => c ≠ '/')
    if parsePyFloat ⟨p1⟩ = 0 then none
    else some ((parsePyFloat ⟨p0⟩) / (parsePyFloat ⟨p1⟩))
  else if inPy "½" time_str then
    let base := time_str.data.filter (fun c => c ≠ '½')
    some ((if base ≠ [] then parsePyFloat ⟨base⟩ else 0) + 1 / 2)
  else if inPy "¼" time_str then
    let base := time_str.data.filter (fun c => c ≠ '¼')
    some ((if base ≠ [] then parsePyFloat ⟨base⟩ else 0) + 1 / 4)
  else if inPy "¾" time_str then
    let base := time_str.data.filter (fun c => c ≠ '¾')
    some ((if base ≠ [] then parsePyFloat ⟨base⟩ else 0) + 3 / 4)
  else some (parsePyFloat time_str)

/-- A parsed time mention (the dict built by `_parse_time_match`). -/
structure TimeExtraction where
  phrase : String
  minutes : Int
  start_pos : Nat
  end_pos : Nat
deriving Repr, DecidableEq

/-- Python `str.replace('.','').isdigit()` on a group. -/
def isDigitsNoDot (s : String) : Bool :=
  let t := s.data.filter (fun c => c ≠ '.')
  t ≠ [] && t.all (fun c => c.isDigit)

/-- `StepTimeParser._parse_time_match`: turn a regex match into a time
record.  The outer `Option` is the exception channel: an uncaught
`ZeroDivisionError` from `_parse_time_value` (the surrounding
`except (ValueError, IndexError)` does not catch it) propagates as
`none`.  The inner `Option` is the Python return value: `none` when the
pattern has fewer than 2 groups (the `until`-style pattern). -/
def parse_time_match (text : String) (pp : ParsePat) (m : REMatch) :
    Option (Option TimeExtraction) :=
  let g : Nat → Option String := fun i => if i < pp.nGroups then getCap m.caps (i + 1) else none
  if pp.nGroups ≥ 2 then
    if pp.nGroups ≥ 3 && pyTruthyStr (g 1) && isDigitsNoDot ((g 1).getD "") then
      -- range format: average of the endpoints times the unit factor
      let start_time := parsePyFloat ((g 0).getD "")
      let end_time := parsePyFloat ((g 1).getD "")
      let unit := lowerPy ((g 2).getD "")
      let minutes := ((start_time + end_time) / 2) * unitConversions unit
      some (some { phrase := matchedText text.data m, minutes := max 1 (pyRound minutes),
                   start_pos := m.startPos, end_pos := m.endPos })
    else
      match parse_time_value ((g 0).getD "") with
      | none => none
      | some time_value =>
        let minutes := time_value * unitConversions (lowerPy ((g 1).getD ""))
        some (some { phrase := matchedText text.data m, minutes := max 1 (pyRound minutes),
                     start_pos := m.startPos, end_pos := m.endPos })
  else some none

/-- Stable insertion by `start_pos` (Python `sorted` with
`key=lambda x: x['start_pos']`). -/
def insertByPos (x : TimeExtraction) : List TimeExtraction → List TimeExtraction
  | [] => [x]
  | y :: ys => if y.start_pos ≤ x.start_pos then y :: insertByPos x ys else x :: y :: ys

/-- Stable sort by `start_pos`. -/
def sortByPos (l : List TimeExtraction) : List TimeExtraction :=
  l.foldl (fun acc x => insertByPos x acc) []

/-- The duplicate-removal loop of `_extract_all_times` (first occurrence
of each phrase wins). -/
def dedupByPhrase : List TimeExtraction → List String → List TimeExtraction
  | [], _ => []
  | e :: rest, seen =>
    if e.phrase ∈ seen then dedupByPhrase rest seen
    else e :: dedupByPhrase rest (e.phrase :: seen)

/-- The inner `for match in pattern.finditer(text)` loop of
`_extract_all_times`: collect the time records of one pattern, skipping
matches without time info; an exception (`none`) aborts the whole call. -/
def collectMatches (text : String) (pp : ParsePat) :
    List REMatch → Option (List TimeExtraction)
  | [] => some []
  | m :: rest =>
    match parse_time_match text pp m with
    | none => none
    | some none => collectMatches text pp rest
    | some (some e) => (collectMatches text pp rest).map (fun l => e :: l)

/-- The outer `for pattern in self.compiled_patterns` loop of
`_extract_all_times`. -/
def extractAllLoop (text : String) : List ParsePat → Option (List TimeExtraction)
  | [] => some []
  | pp :: rest =>
    match collectMatches text pp (reFindAll pp.re text.data) with
    | none => none
    | some l1 => (extractAllLoop text rest).map (fun l2 => l1 ++ l2)

/-- `StepTimeParser._extract_all_times`; `none` is the uncaught
`ZeroDivisionError` propagating out of the loops (the sort/dedup pass is
only reached when every match parsed without raising). -/
def extract_all_times (text : String) : Option (List TimeExtraction) :=
  match extractAllLoop text timePatterns with
  | none => none
  | some extractions => some (dedupByPhrase (sortByPos extractions) [])

/-- The step text chosen for the `i`-th fragment: the stripped 50-character
context window around the mention, or the `Step {i+1}: ...` placeholder if
that window strips to nothing. -/
def contextTextOf (original_text : String) (i : Nat) (time_info : TimeExtraction) : String :=
  let placeholder :=
    "Step " ++ toString (i + 1) ++ ": " ++ time_info.phrase ++ " from original step"
  -- max(0, start-50) is Nat subtraction; min(len, end+50)
  let context_start := time_info.start_pos - 50
  let context_end := min original_text.data.length (time_info.end_pos + 50)
  let context := stripPy (sliceStr original_text.data context_start context_end)
  if context ≠ "" then context else placeholder

/-- `StepTimeParser._split_step_by_times`: one `ParsedStep` per mention,
with `confidence = "extracted"` and the context-window text. -/
def split_step_by_times (original_text : String) (time_extractions : List TimeExtraction) :
    List ParsedStep :=
  (time_extractions.enum).map (fun p =>
    { text := contextTextOf original_text p.1 p.2,
      duration_minutes := some p.2.minutes,
      original_text := original_text, confidence := "extracted",
      time_phrases := [p.2.phrase] })

/-- `StepTimeParser.parse_step_times`, parameterised by the external
duration predictor; `none` is the uncaught `ZeroDivisionError`
propagating out of `_extract_all_times`. -/
def parse_step_times (predict : String → Int) (step_text : String) :
    Option (List ParsedStep) :=
  let original_text := stripPy step_text
  match extract_all_times original_text with
  | none => none
  | some time_extractions =>
    if time_extractions = [] then
      some [{ text := original_text, duration_minutes := some (predict original_text),
              original_text := original_text, confidence := "predicted", time_phrases := [] }]
    else if time_extractions.length = 1 then
      match time_extractions with
      | time_info :: _ =>
        some [{ text := original_text, duration_minutes := some time_info.minutes,
                original_text := original_text, confidence := "extracted",
                time_phrases := [time_info.phrase] }]
      | [] => some []
    else
      some (split_step_by_times original_text time_extractions)

end StepTimeSvc

/-! ## Concrete example data -/

/-- A small well-formed recipe. -/
def recipeW : Recipe :=
  { name := "W", steps := ["Chop veg", "Boil pasta"], step_times := [3, 4] }

/-- A recipe whose steps/durations lengths differ. -/
def recipeBad : Recipe :=
  { name := "Bad", steps := ["first thing", "second thing"], step_times := [5] }

/-- A well-formed companion recipe. -/
def recipeGood : Recipe :=
  { name := "Good", steps := ["only thing"], step_times := [2] }

/-- A recipe with a small explicit total time but a large step-duration
sum. -/
def recipeC5 : Recipe :=
  { name := "C", steps := ["x"], step_times := [100], total_time := some 10 }

/-- A recipe whose only time estimate is its step durations. -/
def recipeW5 : Recipe :=
  { name := "W5", steps := ["slow thing"], step_times := [30] }

/-- An active cooking step of recipe P over `[0, 10)`. -/
def stepP : TimelineStep :=
  { text := "p", duration := 10, start_time := 0, end_time := 10, recipe_name := "P",
    step_number := 1, recipe_color := "c", is_prep := false, is_cooking := true,
    can_multitask := false }

/-- An active cooking step of recipe Q over `[5, 15)`. -/
def stepQ : TimelineStep :=
  { text := "q", duration := 10, start_time := 5, end_time := 15, recipe_name := "Q",
    step_number := 1, recipe_color := "c", is_prep := false, is_cooking := true,
    can_multitask := false }

/-- Nonnegativity of the optional extracted minutes of a split step. -/
def timeNonneg (ss : SplitStep) : Prop := ∀ k, ss.time_minutes = some k → 0 ≤ k

end MealTime

/-! # Theorems -/

namespace MealTime

theorem parsePyFloat_nonneg (s : String) : 0 ≤ parsePyFloat s := by
  unfold parsePyFloat
  positivity

theorem parsePyIntStr_nonneg (s : String) : 0 ≤ parsePyIntStr s := by
  unfold parsePyIntStr
  exact Int.ofNat_nonneg _

theorem ratFloor_nonneg {q : ℚ} (h : 0 ≤ q) : 0 ≤ ratFloor q := by
  unfold ratFloor
  exact Int.fdiv_nonneg (Rat.num_nonneg.mpr h) (Int.ofNat_nonneg _)

theorem pyInt_nonneg {q : ℚ} (h : 0 ≤ q) : 0 ≤ pyInt q := by
  unfold pyInt
  rw [if_neg (not_lt.mpr h)]
  exact ratFloor_nonneg h

namespace StepSplitter

theorem extractBranches_nonneg {tp : TimePat} {tt : String} {g : Nat → Option String}
    {r : Int × String} (h : extractBranches tp tt g = some r) : 0 ≤ r.1 := by
  have a0 := parsePyFloat_nonneg ((g 0).getD "")
  have a1 := parsePyFloat_nonneg ((g 1).getD "")
  have a2 := parsePyFloat_nonneg ((g 2).getD "")
  have c0 : (0:ℚ) ≤ (parsePyIntStr ((g 0).getD "") : ℚ) :=
    Int.cast_nonneg.mpr (parsePyIntStr_nonneg _)
  have c1 : (0:ℚ) ≤ (parsePyIntStr ((g 1).getD "") : ℚ) :=
    Int.cast_nonneg.mpr (parsePyIntStr_nonneg _)
  simp only [extractBranches] at h
  split_ifs at h
  all_goals try (injection h with h2; subst h2; dsimp only)
  · exact pyInt_nonneg (mul_nonneg (div_nonneg (add_nonneg c0 c1) (by norm_num)) (by norm_num))
  · exact pyInt_nonneg (div_nonneg (add_nonneg c0 c1) (by norm_num))
  · exact pyInt_nonneg (mul_nonneg a1 (by norm_num))
  · exact pyInt_nonneg a1
  · exact le_trans zero_le_one (le_max_left _ _)
  · exact le_refl (0:Int)
  · exact pyInt_nonneg (add_nonneg (mul_nonneg a0 (by norm_num)) a2)
  · exact pyInt_nonneg a0
  · exact pyInt_nonneg (add_nonneg (mul_nonneg a0 (by norm_num)) a2)
  · exact pyInt_nonneg (add_nonneg (mul_nonneg a0 (by norm_num)) (le_refl (0:ℚ)))
  · exact le_trans zero_le_one (le_max_left _ _)

theorem extractLoop_nonneg {textLower : String} {l : List TimePat} {r : Int × String}
    (h : extractLoop textLower l = some r) : 0 ≤ r.1 := by
  induction l with
  | nil => simp [extractLoop] at h
  | cons tp rest ih =>
    rw [extractLoop] at h
    cases hs : reSearch tp.re textLower.data with
    | none =>
      simp only [hs] at h
      exact ih h
    | some m =>
      simp only [hs] at h
      cases hb : extractBranches tp (matchedText textLower.data m) (groupsOf m tp.nGroups) with
      | none =>
        simp only [hb] at h
        exact ih h
      | some v =>
        simp only [hb] at h
        obtain rfl : v = r := Option.some.inj h
        exact extractBranches_nonneg hb

theorem extract_time_nonneg {t : String} {k : Int}
    (h : (extract_time_from_text t).1 = some k) : 0 ≤ k := by
  unfold extract_time_from_text at h
  cases hl : extractLoop (stripPy (lowerPy t)) TIME_PATTERNS with
  | none => simp only [hl] at h; simp at h
  | some v =>
    obtain ⟨tm, tt⟩ := v
    simp only [hl] at h
    obtain rfl : tm = k := Option.some.inj h
    exact extractLoop_nonneg hl

theorem singleStepOf_timeNonneg {t : String} {ss : SplitStep}
    (h : ss ∈ singleStepOf t) : timeNonneg ss := by
  unfold singleStepOf at h
  simp at h
  subst h
  intro k hk
  exact extract_time_nonneg hk

theorem processParts_timeNonneg {parts : List String} {ss : SplitStep}
    (h : ss ∈ processParts parts) : timeNonneg ss := by
  unfold processParts at h
  suffices H : ∀ (acc : List SplitStep), (∀ x ∈ acc, timeNonneg x) →
      ∀ x ∈ parts.foldl (fun acc part0 =>
        let part := stripPy part0
        if part = "" then acc
        else
          let tm := (extract_time_from_text part).1
          let tt := (extract_time_from_text part).2
          let instruction := clean_instruction_text part tt
          if (stripPy instruction).length > 3 then
            acc ++ [⟨instruction, tm, tt⟩]
          else acc) acc, timeNonneg x by
    exact H [] (by simp) ss h
  clear h
  induction parts with
  | nil => intro acc hacc; exact hacc
  | cons p rest ih =>
    intro acc hacc x hx
    rw [List.foldl_cons] at hx
    refine ih _ (fun y hy => ?_) x hx
    dsimp only at hy
    split_ifs at hy
    · exact hacc y hy
    · rcases List.mem_append.mp hy with h1 | h2
      · exact hacc y h1
      · simp at h2
        subst h2
        intro k hk
        exact extract_time_nonneg hk
    · exact hacc y hy

theorem split_step_timeNonneg {t : String} {ss : SplitStep}
    (h : ss ∈ split_step t) : timeNonneg ss := by
  unfold split_step at h
  dsimp only at h
  split_ifs at h
  all_goals first
    | exact singleStepOf_timeNonneg h
    | exact processParts_timeNonneg h

theorem split_step_ne_nil (t : String) : split_step t ≠ [] := by
  unfold split_step
  dsimp only
  split_ifs
  all_goals first
    | assumption
    | simp [singleStepOf]

theorem split_recipe_steps_foldl (steps : List String) (acc : List String × List Int) :
    steps.foldl (fun acc step =>
      (split_step step).foldl (fun acc2 ss =>
        (acc2.1 ++ [ss.instruction], acc2.2 ++ [ss.time_minutes.getD 5])) acc) acc
    = (acc.1 ++ (steps.flatMap split_step).map SplitStep.instruction,
       acc.2 ++ (steps.flatMap split_step).map (fun ss => ss.time_minutes.getD 5)) := by
  induction steps generalizing acc with
  | nil => simp
  | cons s rest ih =>
    rw [List.foldl_cons, ih]
    have inner : ∀ (l : List SplitStep) (a : List String × List Int),
        l.foldl (fun acc2 ss =>
          (acc2.1 ++ [ss.instruction], acc2.2 ++ [ss.time_minutes.getD 5])) a
        = (a.1 ++ l.map SplitStep.instruction,
           a.2 ++ l.map (fun ss => ss.time_minutes.getD 5)) := by
      intro l
      induction l with
      | nil => simp
      | cons x xs ihx => intro a; rw [List.foldl_cons, ihx]; simp
    rw [inner]
    simp [List.append_assoc]

theorem split_recipe_steps_eq (steps : List String) :
    split_recipe_steps steps
      = ((steps.flatMap split_step).map SplitStep.instruction,
         (steps.flatMap split_step).map (fun ss => ss.time_minutes.getD 5)) := by
  unfold split_recipe_steps
  rw [split_recipe_steps_foldl]
  simp

end StepSplitter

/-- C10: for every input string (including the empty string and strings
with no time mentions), `split_step` returns a non-empty list of
`SplitStep` records — every fallback path ends by returning the original
text as a single step. -/
theorem spec_c10_split_nonempty (step_text : String) :
    StepSplitter.split_step step_text ≠ [] :=
  StepSplitter.split_step_ne_nil step_text

/-- C3 (amended): for every list of input instruction strings,
`split_recipe_steps` returns two sequences of equal length; every duration
in the output is nonnegative (durations of `0` occur, e.g. for a step
mentioning `0 minutes`, so `≥ 1` does not hold); and the durations are
exactly the per-segment extracted minutes with the fixed fallback of 5
minutes for segments without an extracted duration. -/
theorem spec_c3_amended (steps : List String) :
    (StepSplitter.split_recipe_steps steps).1.length
        = (StepSplitter.split_recipe_steps steps).2.length ∧
    (∀ d ∈ (StepSplitter.split_recipe_steps steps).2, 0 ≤ d) ∧
    (StepSplitter.split_recipe_steps steps).2
      = (steps.flatMap StepSplitter.split_step).map (fun ss => ss.time_minutes.getD 5) := by
  rw [StepSplitter.split_recipe_steps_eq]
  refine ⟨by simp, ?_, rfl⟩
  intro d hd
  simp only [List.mem_map] at hd
  obtain ⟨ss, hss, rfl⟩ := hd
  simp only [List.mem_flatMap] at hss
  obtain ⟨s, _, hmem⟩ := hss
  cases htm : ss.time_minutes with
  | none => simp [htm]
  | some k =>
    simp only [htm, Option.getD_some]
    exact StepSplitter.split_step_timeNonneg hmem k htm

end MealTime

namespace MealTime
namespace TimelineService

/-! ### backFill lemmas (claim C1) -/

theorem backFill_length (n : String) (tot : Nat) (col : String) (l : List (String × Int))
    (i : Nat) (e : ℚ) : (backFill n tot col l i e).length = l.length := by
  induction l generalizing i e with
  | nil => rfl
  | cons x rest ih => simp [backFill, ih]

theorem backFill_map_duration (n : String) (tot : Nat) (col : String)
    (l : List (String × Int)) (i : Nat) (e : ℚ) :
    (backFill n tot col l i e).map TimelineStep.duration = l.map Prod.snd := by
  induction l generalizing i e with
  | nil => rfl
  | cons x rest ih => simp [backFill, ih]

theorem backFill_start_eq (n : String) (tot : Nat) (col : String)
    {l : List (String × Int)} {i : Nat} {e : ℚ} {s : TimelineStep}
    (h : s ∈ backFill n tot col l i e) : s.start_time = s.end_time - (s.duration : ℚ) := by
  induction l generalizing i e with
  | nil => simp [backFill] at h
  | cons x rest ih =>
    rw [backFill] at h
    rcases List.mem_cons.mp h with rfl | hmem
    · rfl
    · exact ih hmem

theorem backFill_gap_zero (n : String) (tot : Nat) (col : String)
    {l : List (String × Int)} {i : Nat} {e : ℚ} {s : TimelineStep}
    (h : s ∈ backFill n tot col l i e) : s.time_gap = 0 := by
  induction l generalizing i e with
  | nil => simp [backFill] at h
  | cons x rest ih =>
    rw [backFill] at h
    rcases List.mem_cons.mp h with rfl | hmem
    · rfl
    · exact ih hmem

theorem backFill_head_end (n : String) (tot : Nat) (col : String)
    (x : String × Int) (l : List (String × Int)) (i : Nat) (e : ℚ) :
    ((backFill n tot col (x :: l) i e).head?).map TimelineStep.end_time = some e := by
  rw [backFill]
  rfl

theorem backFill_chain (n : String) (tot : Nat) (col : String)
    (l : List (String × Int)) (i : Nat) (e : ℚ) :
    List.Chain' (fun a b => b.end_time = a.start_time) (backFill n tot col l i e) := by
  induction l generalizing i e with
  | nil => exact List.chain'_nil
  | cons x rest ih =>
    rw [backFill]
    refine List.chain'_cons'.mpr ⟨?_, ih _ _⟩
    intro y hy
    cases rest with
    | nil => simp [backFill] at hy
    | cons z rest2 =>
      rw [backFill] at hy
      simp only [List.head?_cons, Option.mem_def, Option.some.injEq] at hy
      subst hy
      rfl

theorem backFill_last_start (n : String) (tot : Nat) (col : String)
    (l : List (String × Int)) (i : Nat) (e : ℚ) (hne : l ≠ []) :
    ((backFill n tot col l i e).getLast?).map TimelineStep.start_time
      = some (e - ((l.map Prod.snd).sum : ℚ)) := by
  induction l generalizing i e with
  | nil => exact absurd rfl hne
  | cons x rest ih =>
    cases rest with
    | nil =>
      rw [backFill, backFill]
      simp
    | cons z rest2 =>
      rw [backFill, backFill, List.getLast?_cons_cons]
      have := ih (i := i + 1) (e := e - (x.2 : ℚ)) (by simp)
      rw [backFill] at this
      rw [this]
      simp only [List.map_cons, List.sum_cons, Option.some.injEq]
      push_cast
      ring

end TimelineService
end MealTime

namespace MealTime
namespace TimelineService

theorem process_single_recipe_eq {recipe : Recipe} (target_time : ℚ) (color_index : Nat)
    (h1 : recipe.steps ≠ []) (h2 : recipe.step_times ≠ [])
    (h3 : recipe.steps.length = recipe.step_times.length) :
    process_single_recipe recipe target_time color_index
      = (backFill recipe.name recipe.steps.length
          (Config.RECIPE_COLORS.getD (color_index % Config.RECIPE_COLORS.length) "")
          ((recipe.steps.zip recipe.step_times).reverse) 0 target_time).reverse := by
  unfold process_single_recipe
  rw [if_neg, if_neg]
  · exact fun h => h h3
  · simp [h1, h2]

end TimelineService

open TimelineService in
/-- C1: for every recipe with equal-length non-empty steps/durations
arrays and every target time, `_process_single_recipe` yields one timed
step per input step whose durations are the input durations; every step's
start time is its end time minus its duration; the last step's end time is
exactly the target; each step's end time equals the following step's start
time; and the first step starts at target minus the sum of all
durations. -/
theorem spec_c1_backward_fill (recipe : Recipe) (target_time : ℚ) (color_index : Nat)
    (hne : recipe.steps ≠ [])
    (hlen : recipe.steps.length = recipe.step_times.length) :
    (process_single_recipe recipe target_time color_index).length = recipe.steps.length ∧
    (process_single_recipe recipe target_time color_index).map TimelineStep.duration
        = recipe.step_times ∧
    (∀ s ∈ process_single_recipe recipe target_time color_index,
        s.start_time = s.end_time - (s.duration : ℚ)) ∧
    ((process_single_recipe recipe target_time color_index).getLast?).map TimelineStep.end_time
        = some target_time ∧
    List.Chain' (fun a b => a.end_time = b.start_time)
        (process_single_recipe recipe target_time color_index) ∧
    ((process_single_recipe recipe target_time color_index).head?).map TimelineStep.start_time
        = some (target_time - (recipe.step_times.sum : ℚ)) := by
  have hne2 : recipe.step_times ≠ [] := by
    intro h
    apply hne
    rw [← List.length_eq_zero, hlen, h]
    rfl
  have heq := process_single_recipe_eq target_time color_index hne hne2 hlen
  have hziplen : (recipe.steps.zip recipe.step_times).length = recipe.steps.length := by
    rw [List.length_zip, hlen, min_self]
  have hzipne : (recipe.steps.zip recipe.step_times).reverse ≠ [] := by
    intro h
    apply hne
    rw [← List.length_eq_zero]
    have := congrArg List.length h
    simp only [List.length_reverse, hziplen] at this
    simpa using this
  refine ⟨?_, ?_, ?_, ?_, ?_, ?_⟩
  · rw [heq, List.length_reverse, backFill_length, List.length_reverse, hziplen]
  · rw [heq, List.map_reverse, backFill_map_duration, List.map_reverse, List.reverse_reverse,
      List.map_snd_zip]
    exact le_of_eq hlen.symm
  · intro s hs
    rw [heq, List.mem_reverse] at hs
    exact backFill_start_eq _ _ _ hs
  · rw [heq, List.getLast?_reverse]
    rcases hz : (recipe.steps.zip recipe.step_times).reverse with _ | ⟨x, l⟩
    · exact absurd hz hzipne
    · exact backFill_head_end _ _ _ _ _ _ _
  · rw [heq, List.chain'_reverse]
    exact backFill_chain _ _ _ _ _ _
  · rw [heq, List.head?_reverse]
    rw [backFill_last_start _ _ _ _ _ _ hzipne]
    congr 2
    rw [List.map_reverse, List.sum_reverse, List.map_snd_zip]
    exact le_of_eq hlen.symm

end MealTime

namespace MealTime

open TimelineService in
/-- C8 (amended): for every recipe whose steps and durations sequences
have different lengths, the timeline builder silently skips the recipe —
`_process_single_recipe` returns no steps and raises no error, so the
resulting timeline simply omits that recipe. -/
theorem spec_c8_amended (recipe : Recipe) (target_time : ℚ) (color_index : Nat)
    (h : recipe.steps.length ≠ recipe.step_times.length) :
    process_single_recipe recipe target_time color_index = [] := by
  unfold process_single_recipe
  split_ifs <;> first | rfl | omega

namespace TimelineService

/-! ### stable sort lemmas (claim C4) -/

theorem insertByStart_perm (x : TimelineStep) (l : List TimelineStep) :
    List.Perm (insertByStart x l) (x :: l) := by
  induction l with
  | nil => rfl
  | cons y ys ih =>
    rw [insertByStart]
    split_ifs
    · exact (ih.cons y).trans (List.Perm.swap x y ys)
    · rfl

theorem sortByStart_perm (l : List TimelineStep) : List.Perm (sortByStart l) l := by
  suffices H : ∀ acc : List TimelineStep,
      List.Perm (l.foldl (fun acc x => insertByStart x acc) acc) (acc ++ l) by
    simpa using H []
  induction l with
  | nil => simp
  | cons y ys ih =>
    intro acc
    rw [List.foldl_cons]
    refine (ih (insertByStart y acc)).trans ?_
    exact ((insertByStart_perm y acc).append_right ys).trans List.perm_middle.symm

end TimelineService
end MealTime

namespace MealTime
namespace TimelineService

theorem insertByStart_mem {x y : TimelineStep} {l : List TimelineStep}
    (h : y ∈ insertByStart x l) : y = x ∨ y ∈ l :=
  List.mem_cons.mp ((insertByStart_perm x l).mem_iff.mp h)

theorem insertByStart_sorted {x : TimelineStep} {l : List TimelineStep}
    (hl : List.Sorted startLE l) : List.Sorted startLE (insertByStart x l) := by
  induction l with
  | nil => simpa [insertByStart, startLE] using List.sorted_singleton x
  | cons y ys ih =>
    rw [insertByStart]
    rw [List.sorted_cons] at hl
    split_ifs with hle
    · rw [List.sorted_cons]
      refine ⟨?_, ih hl.2⟩
      intro b hb
      rcases insertByStart_mem hb with rfl | hmem
      · exact hle
      · exact hl.1 b hmem
    · rw [List.sorted_cons]
      refine ⟨?_, List.sorted_cons.mpr hl⟩
      intro b hb
      rcases List.mem_cons.mp hb with rfl | hmem
      · exact le_of_not_le hle
      · exact le_trans (le_of_not_le hle) (hl.1 b hmem)

theorem sortByStart_sorted (l : List TimelineStep) : List.Sorted startLE (sortByStart l) := by
  suffices H : ∀ acc : List TimelineStep, List.Sorted startLE acc →
      List.Sorted startLE (l.foldl (fun acc x => insertByStart x acc) acc) by
    exact H [] List.sorted_nil
  induction l with
  | nil => exact fun acc h => h
  | cons y ys ih =>
    intro acc hacc
    rw [List.foldl_cons]
    exact ih _ (insertByStart_sorted hacc)

theorem insertByStart_filter_key {x : TimelineStep} {l : List TimelineStep} (k : ℚ)
    (hl : List.Sorted startLE l) :
    (insertByStart x l).filter (fun s => s.start_time = k)
      = l.filter (fun s => s.start_time = k) ++ (if x.start_time = k then [x] else []) := by
  induction l with
  | nil =>
    by_cases hxk : x.start_time = k <;> simp [insertByStart, hxk]
  | cons y ys ih =>
    rw [List.sorted_cons] at hl
    rw [insertByStart]
    by_cases hle : y.start_time ≤ x.start_time
    · rw [if_pos hle, List.filter_cons, List.filter_cons]
      by_cases hyk : y.start_time = k
      · rw [if_pos (by simpa using hyk), if_pos (by simpa using hyk), ih hl.2, List.cons_append]
      · rw [if_neg (by simpa using hyk), if_neg (by simpa using hyk)]
        exact ih hl.2
    · rw [if_neg hle]
      by_cases hxk : x.start_time = k
      · have hnone : (y :: ys).filter (fun s => s.start_time = k) = [] := by
          rw [List.filter_eq_nil_iff]
          intro a ha hak
          have hak2 : a.start_time = k := by simpa using hak
          have hya : y.start_time ≤ a.start_time := by
            rcases List.mem_cons.mp ha with rfl | hmem
            · exact le_refl _
            · exact hl.1 a hmem
          exact hle (hya.trans (le_of_eq (hak2.trans hxk.symm)))
        rw [List.filter_cons, if_pos (by simpa using hxk), hnone, if_pos hxk]
        rfl
      · rw [List.filter_cons, if_neg (by simpa using hxk), if_neg hxk, List.append_nil]

theorem sortByStart_filter_key (l : List TimelineStep) (k : ℚ) :
    (sortByStart l).filter (fun s => s.start_time = k)
      = l.filter (fun s => s.start_time = k) := by
  suffices H : ∀ acc : List TimelineStep, List.Sorted startLE acc →
      (l.foldl (fun acc x => insertByStart x acc) acc).filter (fun s => s.start_time = k)
        = acc.filter (fun s => s.start_time = k) ++ l.filter (fun s => s.start_time = k) by
    simpa using H [] List.sorted_nil
  induction l with
  | nil => simp
  | cons y ys ih =>
    intro acc hacc
    rw [List.foldl_cons, ih _ (insertByStart_sorted hacc),
      insertByStart_filter_key k hacc, List.filter_cons]
    by_cases hyk : y.start_time = k
    · rw [if_pos hyk, if_pos (by simpa using hyk)]
      simp
    · rw [if_neg hyk, if_neg (by simpa using hyk)]
      simp

end TimelineService
end MealTime

namespace MealTime
namespace TimelineService

/-! ### metadata lemmas (claim C4) -/

theorem metaStep_order (i : Nat) (prev : Option TimelineStep) (s : TimelineStep) :
    (metaStep i prev s).order = i + 1 := by
  cases i <;> cases prev <;> rfl

theorem metaStep_start (i : Nat) (prev : Option TimelineStep) (s : TimelineStep) :
    (metaStep i prev s).start_time = s.start_time := by
  cases i <;> cases prev <;> rfl

theorem metaStep_end (i : Nat) (prev : Option TimelineStep) (s : TimelineStep) :
    (metaStep i prev s).end_time = s.end_time := by
  cases i <;> cases prev <;> rfl

theorem metaStep_stripMeta (i : Nat) (prev : Option TimelineStep) (s : TimelineStep) :
    stripMeta (metaStep i prev s) = stripMeta s := by
  cases i <;> cases prev <;> rfl

theorem metaStep_zero_none (s : TimelineStep) :
    metaStep 0 none s = { s with order := 1 } := rfl

theorem metaStep_succ_some (i : Nat) (p : TimelineStep) (s : TimelineStep) :
    metaStep (i + 1) (some p) s
      = { s with order := i + 2, time_gap := s.start_time - p.end_time } := rfl

theorem addMeta_length (i : Nat) (prev : Option TimelineStep) (l : List TimelineStep) :
    (add_timeline_metadata i prev l).length = l.length := by
  induction l generalizing i prev with
  | nil => rfl
  | cons s rest ih => simp [add_timeline_metadata, ih]

theorem addMeta_map_stripMeta (i : Nat) (prev : Option TimelineStep) (l : List TimelineStep) :
    (add_timeline_metadata i prev l).map stripMeta = l.map stripMeta := by
  induction l generalizing i prev with
  | nil => rfl
  | cons s rest ih =>
    rw [add_timeline_metadata]
    simp only [List.map_cons, ih, metaStep_stripMeta]

theorem addMeta_get?_order (l : List TimelineStep) (i : Nat) (prev : Option TimelineStep)
    (j : Nat) {s : TimelineStep}
    (h : (add_timeline_metadata i prev l).get? j = some s) : s.order = i + j + 1 := by
  induction l generalizing i prev j with
  | nil => simp [add_timeline_metadata] at h
  | cons x rest ih =>
    rw [add_timeline_metadata] at h
    cases j with
    | zero =>
      simp only [List.get?_cons_zero, Option.some.injEq] at h
      subst h
      simpa using metaStep_order i prev x
    | succ j0 =>
      rw [List.get?_cons_succ] at h
      rw [ih _ _ _ h]
      omega

theorem addMeta_chain_gap (l : List TimelineStep) (i : Nat) (prev : Option TimelineStep) :
    List.Chain' (fun a b => b.time_gap = b.start_time - a.end_time)
      (add_timeline_metadata i prev l) := by
  induction l generalizing i prev with
  | nil => exact List.chain'_nil
  | cons s rest ih =>
    rw [add_timeline_metadata]
    refine List.chain'_cons'.mpr ⟨?_, ih _ _⟩
    intro y hy
    cases rest with
    | nil => simp [add_timeline_metadata] at hy
    | cons r rest2 =>
      rw [add_timeline_metadata] at hy
      simp only [List.head?_cons, Option.mem_def, Option.some.injEq] at hy
      subst hy
      rw [metaStep_succ_some]

theorem addMeta_head_gap {l : List TimelineStep}
    (hz : ∀ s ∈ l, s.time_gap = 0) {s : TimelineStep}
    (h : (add_timeline_metadata 0 none l).head? = some s) : s.time_gap = 0 := by
  cases l with
  | nil => simp [add_timeline_metadata] at h
  | cons x rest =>
    rw [add_timeline_metadata] at h
    simp only [List.head?_cons, Option.some.injEq] at h
    subst h
    rw [metaStep_zero_none]
    exact hz x (List.mem_cons_self x rest)

end TimelineService
end MealTime

namespace MealTime
namespace TimelineService

theorem process_single_recipe_gap_zero {r : Recipe} {t : ℚ} {c : Nat} {s : TimelineStep}
    (h : s ∈ process_single_recipe r t c) : s.time_gap = 0 := by
  unfold process_single_recipe at h
  split_ifs at h
  · simp at h
  · simp at h
  · rw [List.mem_reverse] at h
    exact backFill_gap_zero _ _ _ h

theorem allRecipeSteps_gap_zero {recipes : List Recipe} {t : ℚ} {s : TimelineStep}
    (h : s ∈ allRecipeSteps recipes t) : s.time_gap = 0 := by
  unfold allRecipeSteps at h
  suffices H : ∀ (l : List (Nat × Recipe)) (acc : List TimelineStep),
      (∀ x ∈ acc, x.time_gap = 0) →
      ∀ x ∈ l.foldl (fun acc p => acc ++ process_single_recipe p.2 t p.1) acc,
        x.time_gap = 0 by
    exact H recipes.enum [] (by simp) s h
  intro l
  induction l with
  | nil => intro acc hacc; exact hacc
  | cons p rest ih =>
    intro acc hacc x hx
    rw [List.foldl_cons] at hx
    refine ih _ (fun y hy => ?_) x hx
    rcases List.mem_append.mp hy with h1 | h2
    · exact hacc y h1
    · exact process_single_recipe_gap_zero h2

theorem sortByStart_filter_key_strip (l : List TimelineStep) (k : ℚ) :
    ((sortByStart l).map stripMeta).filter (fun s => s.start_time = k)
      = (l.map stripMeta).filter (fun s => s.start_time = k) := by
  rw [List.filter_map, List.filter_map]
  exact congrArg (List.map stripMeta) (sortByStart_filter_key l k)

end TimelineService

open TimelineService in
/-- C4: for every build, the merged plan is the concatenation of all
recipes' timed steps sorted by start time ascending with a stable
tie-break preserving original order (a permutation that is sorted and
preserves the sublists of steps sharing any given start time); adjacent
pairs satisfy `start[i] ≤ start[i+1]`; each step's global order index is
its 1-based position; and each step's `time_gap` equals its start time
minus the previous step's end time, zero for the first step. -/
theorem spec_c4_merge (recipes : List Recipe) (target_time : ℚ) :
    List.Chain' (fun a b => a.start_time ≤ b.start_time)
        (generate_timeline recipes target_time) ∧
    List.Perm ((generate_timeline recipes target_time).map stripMeta)
        ((allRecipeSteps recipes target_time).map stripMeta) ∧
    (∀ k : ℚ,
        ((generate_timeline recipes target_time).map stripMeta).filter
            (fun s => s.start_time = k)
          = ((allRecipeSteps recipes target_time).map stripMeta).filter
              (fun s => s.start_time = k)) ∧
    (∀ j s, (generate_timeline recipes target_time).get? j = some s → s.order = j + 1) ∧
    List.Chain' (fun a b => b.time_gap = b.start_time - a.end_time)
        (generate_timeline recipes target_time) ∧
    (∀ s, (generate_timeline recipes target_time).head? = some s → s.time_gap = 0) := by
  by_cases hrec : recipes = []
  · subst hrec
    refine ⟨List.chain'_nil, ?_, ?_, ?_, List.chain'_nil, ?_⟩
    · rfl
    · intro k; rfl
    · intro j s h; simp [generate_timeline] at h
    · intro s h; simp [generate_timeline] at h
  · have hgen : generate_timeline recipes target_time
        = add_timeline_metadata 0 none (sortByStart (allRecipeSteps recipes target_time)) := by
      unfold generate_timeline
      rw [if_neg hrec]
    have hmap := addMeta_map_stripMeta 0 none (sortByStart (allRecipeSteps recipes target_time))
    refine ⟨?_, ?_, ?_, ?_, ?_, ?_⟩
    · rw [hgen]
      have h1 : List.Chain' startLE (sortByStart (allRecipeSteps recipes target_time)) :=
        (sortByStart_sorted _).chain'
      have hA : List.Chain' startLE
          ((sortByStart (allRecipeSteps recipes target_time)).map stripMeta) :=
        (List.chain'_map stripMeta).mpr h1
      rw [← hmap] at hA
      exact (List.chain'_map stripMeta).mp hA
    · rw [hgen, hmap]
      exact (sortByStart_perm _).map stripMeta
    · intro k
      rw [hgen, hmap]
      exact sortByStart_filter_key_strip _ k
    · intro j s h
      rw [hgen] at h
      have := addMeta_get?_order _ 0 none j h
      simpa using this
    · rw [hgen]
      exact addMeta_chain_gap _ 0 none
    · intro s h
      rw [hgen] at h
      refine addMeta_head_gap (fun x hx => ?_) h
      exact allRecipeSteps_gap_zero ((sortByStart_perm _).mem_iff.mp hx)

end MealTime

namespace MealTime
namespace ValidationService

/-! ### claim C7 -/

theorem validate_target_time_past {target_time current_time : ℚ}
    (h : target_time ≤ current_time) :
    validate_target_time target_time current_time
      = { valid := false, warnings := [], errors := [.must_be_in_future] } := by
  unfold validate_target_time
  rw [if_pos h]

theorem validate_target_time_future {target_time current_time : ℚ}
    (h : current_time < target_time) :
    (validate_target_time target_time current_time).valid = true ∧
    (validate_target_time target_time current_time).errors = [] ∧
    (TargetIssue.very_tight_timing ∈ (validate_target_time target_time current_time).warnings
        ↔ target_time - current_time < Config.MIN_PREP_TIME) ∧
    (TargetIssue.more_than_24_hours_away
          ∈ (validate_target_time target_time current_time).warnings
        ↔ target_time - current_time > 24 * 60) := by
  unfold validate_target_time
  rw [if_neg (not_le.mpr h)]
  refine ⟨rfl, rfl, ?_, ?_⟩
  · dsimp only
    split_ifs with h1 h2 h2 <;> simp_all
  · dsimp only
    split_ifs with h1 h2 h2 <;> simp_all

end ValidationService

open ValidationService in
/-- C7: for every target and current time, the target-time check returns
invalid with the future-required error exactly when the target is not
strictly after the current time; otherwise it is valid with no errors,
warning when the gap is below the 10-minute minimum preparation window
and warning when the gap exceeds 24 hours. -/
theorem spec_c7_target_time (target_time current_time : ℚ) :
    ((validate_target_time target_time current_time).valid = false
        ↔ target_time ≤ current_time) ∧
    ((validate_target_time target_time current_time).errors ≠ []
        ↔ target_time ≤ current_time) ∧
    (target_time ≤ current_time →
        (validate_target_time target_time current_time).errors
          = [ValidationService.TargetIssue.must_be_in_future]) ∧
    (current_time < target_time →
        (validate_target_time target_time current_time).valid = true ∧
        (validate_target_time target_time current_time).errors = [] ∧
        (ValidationService.TargetIssue.very_tight_timing
              ∈ (validate_target_time target_time current_time).warnings
            ↔ target_time - current_time < Config.MIN_PREP_TIME) ∧
        (ValidationService.TargetIssue.more_than_24_hours_away
              ∈ (validate_target_time target_time current_time).warnings
            ↔ target_time - current_time > 24 * 60)) := by
  by_cases h : target_time ≤ current_time
  · rw [validate_target_time_past h]
    refine ⟨by simpa using h, by simpa using h, fun _ => rfl, fun hlt => absurd h (not_le.mpr hlt)⟩
  · have hlt : current_time < target_time := not_le.mp h
    have hf := validate_target_time_future hlt
    refine ⟨?_, ?_, fun hc => absurd hc h, fun _ => hf⟩
    · rw [hf.1]; simpa using h
    · rw [hf.2.1]; simpa using h

end MealTime

namespace MealTime
namespace ValidationService

/-! ### claim C5 -/

theorem estimate_foldl_ge_init (recipes : List Recipe) (m : Int) :
    m ≤ recipes.foldl (fun max_total_time recipe =>
      if truthyOptInt recipe.total_time then
        max max_total_time (recipe.total_time.getD 0)
      else if truthyOptInt recipe.prep_time && truthyOptInt recipe.cook_time then
        max max_total_time (recipe.prep_time.getD 0 + recipe.cook_time.getD 0)
      else if recipe.step_times ≠ [] then
        max max_total_time recipe.step_times.sum
      else max_total_time) m := by
  induction recipes generalizing m with
  | nil => exact le_refl m
  | cons r rest ih =>
    rw [List.foldl_cons]
    refine le_trans ?_ (ih _)
    split_ifs <;> first | exact le_max_left _ _ | exact le_refl m

theorem estimate_ge_step_sum {recipes : List Recipe} {r : Recipe} (hr : r ∈ recipes)
    (h1 : truthyOptInt r.total_time = false)
    (h2 : (truthyOptInt r.prep_time && truthyOptInt r.cook_time) = false)
    (h3 : r.step_times ≠ []) :
    r.step_times.sum ≤ estimate_total_time_needed recipes := by
  obtain ⟨l1, l2, rfl⟩ := List.append_of_mem hr
  unfold estimate_total_time_needed
  rw [List.foldl_append, List.foldl_cons]
  refine le_trans ?_ (estimate_foldl_ge_init l2 _)
  rw [if_neg (by simp [h1]), if_neg (by simp [h2]), if_pos h3]
  exact le_max_right _ _

end ValidationService

open ValidationService in
/-- C5 (amended): if some selected recipe has no truthy explicit total
time and not both prep and cook times truthy — so its time estimate is the
sum of its step durations — and that sum exceeds the minutes available
until the target, then the feasibility check returns `feasible = false`
and reports a positive shortage.  (As originally stated the claim fails
when the recipe carries a small explicit total time; see the
counterexample.) -/
theorem spec_c5_amended (recipes : List Recipe) (target_time current_time : ℚ)
    (r : Recipe) (hr : r ∈ recipes)
    (h1 : ValidationService.truthyOptInt r.total_time = false)
    (h2 : (ValidationService.truthyOptInt r.prep_time
            && ValidationService.truthyOptInt r.cook_time) = false)
    (h3 : r.step_times ≠ [])
    (hsum : target_time - current_time < (r.step_times.sum : ℚ)) :
    (validate_timeline_feasibility recipes target_time current_time).feasible = false ∧
    ∃ shortage : ℚ, 0 < shortage ∧
      (validate_timeline_feasibility recipes target_time current_time).errors
        = [ValidationService.FeasibilityMsg.needMoreMinutes shortage] := by
  have hest : r.step_times.sum ≤ estimate_total_time_needed recipes :=
    estimate_ge_step_sum hr h1 h2 h3
  have hgt : ((estimate_total_time_needed recipes : ℚ)) > target_time - current_time :=
    lt_of_lt_of_le hsum (by exact_mod_cast hest)
  unfold validate_timeline_feasibility
  dsimp only
  rw [if_pos hgt]
  refine ⟨rfl, (estimate_total_time_needed recipes : ℚ) - (target_time - current_time),
    by linarith, rfl⟩

end MealTime

namespace MealTime
namespace TimelineService

/-! ### claim C6 -/

theorem overlapIssues_mem {l : List TimelineStep} {x : TimelineIssue} :
    x ∈ overlapIssues l ↔
      ∃ s1 s2, List.Sublist [s1, s2] l ∧ overlapPred s1 s2 = true ∧
        x = .overlapping_active_steps s1.recipe_name s2.recipe_name := by
  induction l with
  | nil =>
    simp only [overlapIssues, List.not_mem_nil, false_iff]
    rintro ⟨s1, s2, hsub, -, -⟩
    exact absurd (List.eq_nil_of_sublist_nil hsub) (by simp)
  | cons a rest ih =>
    rw [overlapIssues]
    simp only [List.mem_append, List.mem_map, List.mem_filter, ih]
    constructor
    · rintro (⟨s2, ⟨hs2mem, hpred⟩, rfl⟩ | ⟨s1, s2, hsub, hpred, rfl⟩)
      · exact ⟨a, s2, (List.singleton_sublist.mpr hs2mem).cons₂ a, hpred, rfl⟩
      · exact ⟨s1, s2, hsub.cons a, hpred, rfl⟩
    · rintro ⟨s1, s2, hsub, hpred, rfl⟩
      cases hsub with
      | cons _ htail =>
        right
        exact ⟨s1, s2, htail, hpred, rfl⟩
      | cons₂ _ htail =>
        left
        exact ⟨s2, ⟨List.singleton_sublist.mp htail, hpred⟩, rfl⟩

theorem overlapIssues_shape {l : List TimelineStep} {x : TimelineIssue}
    (h : x ∈ overlapIssues l) : ∃ n1 n2, x = .overlapping_active_steps n1 n2 := by
  obtain ⟨s1, s2, -, -, rfl⟩ := overlapIssues_mem.mp h
  exact ⟨_, _, rfl⟩

theorem pair_sublist_filter {p : TimelineStep → Bool} {s1 s2 : TimelineStep}
    {l : List TimelineStep} :
    List.Sublist [s1, s2] (l.filter p) ↔
      List.Sublist [s1, s2] l ∧ p s1 = true ∧ p s2 = true := by
  constructor
  · intro h
    refine ⟨h.trans (List.filter_sublist l), ?_, ?_⟩
    · exact List.of_mem_filter (h.subset (by simp))
    · exact List.of_mem_filter (h.subset (by simp))
  · rintro ⟨hsub, h1, h2⟩
    have hf := hsub.filter p
    rwa [List.filter_cons, if_pos h1, List.filter_cons, if_pos h2, List.filter_nil] at hf

theorem overlapIssues_filter_error (l : List TimelineStep) :
    (overlapIssues l).filter (fun i => issueSeverity i = "error") = [] := by
  rw [List.filter_eq_nil_iff]
  intro x hx
  obtain ⟨n1, n2, rfl⟩ := overlapIssues_shape hx
  simp [issueSeverity]

end TimelineService
end MealTime

namespace MealTime
open TimelineService in
/-- C6: for every non-empty built timeline and current time, the
post-build safety check reports a past-start error exactly when the
earliest step's start time is at or before the current time (and `valid`
is false exactly then), and reports an overlap warning for a pair of steps
exactly when the two steps come from recipes with different names, both
are cooking steps, neither can multitask, and their `[start, end)`
intervals intersect; same-recipe overlaps and multitask-capable overlaps
are never flagged. -/
theorem spec_c6_safety (steps : List TimelineStep) (current_time : ℚ) (hne : steps ≠ []) :
    ((∃ m, TimelineIssue.past_start_time m
          ∈ (validate_timeline steps current_time).issues)
        ↔ earliestStart steps ≤ current_time) ∧
    ((validate_timeline steps current_time).valid = true
        ↔ ¬ earliestStart steps ≤ current_time) ∧
    (∀ n1 n2, TimelineIssue.overlapping_active_steps n1 n2
          ∈ (validate_timeline steps current_time).issues
        ↔ ∃ s1 s2, List.Sublist [s1, s2] steps ∧
            s1.is_cooking = true ∧ s1.can_multitask = false ∧
            s2.is_cooking = true ∧ s2.can_multitask = false ∧
            s1.start_time < s2.end_time ∧ s2.start_time < s1.end_time ∧
            s1.recipe_name ≠ s2.recipe_name ∧
            n1 = s1.recipe_name ∧ n2 = s2.recipe_name) := by
  refine ⟨?_, ?_, ?_⟩
  · unfold validate_timeline
    rw [if_neg hne]
    dsimp only
    constructor
    · rintro ⟨m, hm⟩
      rcases List.mem_append.mp hm with h | h
      · by_cases hc : earliestStart steps ≤ current_time
        · exact hc
        · rw [if_neg hc] at h
          simp at h
      · obtain ⟨n1, n2, heq⟩ := overlapIssues_shape h
        exact absurd heq (by simp)
    · intro hc
      refine ⟨current_time - earliestStart steps, List.mem_append_left _ ?_⟩
      rw [if_pos hc]
      simp
  · unfold validate_timeline
    rw [if_neg hne]
    dsimp only
    by_cases hc : earliestStart steps ≤ current_time
    · rw [if_pos hc]
      rw [List.filter_append, overlapIssues_filter_error]
      simp [issueSeverity, hc]
    · rw [if_neg hc]
      rw [List.filter_append, overlapIssues_filter_error]
      simp [hc]
  · intro n1 n2
    unfold validate_timeline
    rw [if_neg hne]
    dsimp only
    rw [List.mem_append]
    have hnp : TimelineIssue.overlapping_active_steps n1 n2
        ∉ (if earliestStart steps ≤ current_time then
            [TimelineIssue.past_start_time (current_time - earliestStart steps)] else []) := by
      split_ifs <;> simp
    simp only [hnp, false_or]
    rw [overlapIssues_mem]
    constructor
    · rintro ⟨s1, s2, hsub, hpred, heq⟩
      obtain ⟨hsub2, hp1, hp2⟩ := pair_sublist_filter.mp hsub
      have hc1 : s1.is_cooking = true ∧ s1.can_multitask = false := by
        revert hp1; simp
      have hc2 : s2.is_cooking = true ∧ s2.can_multitask = false := by
        revert hp2; simp
      have hov : s1.start_time < s2.end_time ∧ s2.start_time < s1.end_time ∧
          s1.recipe_name ≠ s2.recipe_name := by
        revert hpred; unfold overlapPred; simp; try tauto
      have hn : n1 = s1.recipe_name ∧ n2 = s2.recipe_name := by
        revert heq; simp; try tauto
      exact ⟨s1, s2, hsub2, hc1.1, hc1.2, hc2.1, hc2.2, hov.1, hov.2.1, hov.2.2,
        hn.1, hn.2⟩
    · rintro ⟨s1, s2, hsub, hk1, hm1, hk2, hm2, hlt1, hlt2, hnn, rfl, rfl⟩
      refine ⟨s1, s2, pair_sublist_filter.mpr ⟨hsub, ?_, ?_⟩, ?_, rfl⟩
      · simp [hk1, hm1]
      · simp [hk2, hm2]
      · unfold overlapPred
        simp [hlt1, hlt2, hnn]

end MealTime

namespace MealTime
open StepTimeSvc in
/-- C9: for every raw instruction whose time extraction completes (the
zero-denominator `ZeroDivisionError`, modelled as `none`, propagates out
unchanged), the step time resolver yields one predicted `ParsedStep` when
no duration mention is found; one extracted `ParsedStep` with the
instruction intact when exactly one mention is found; and one
`ParsedStep` per mention when several are found, each with confidence
`extracted` and text taken from the 50-character context window around
its mention. -/
theorem spec_c9_resolver (predict : String → Int) (step_text : String) :
    (StepTimeSvc.extract_all_times (stripPy step_text) = none →
        StepTimeSvc.parse_step_times predict step_text = none) ∧
    (StepTimeSvc.extract_all_times (stripPy step_text) = some [] →
        StepTimeSvc.parse_step_times predict step_text
          = some [{ text := stripPy step_text,
                      duration_minutes := some (predict (stripPy step_text)),
                      original_text := stripPy step_text, confidence := "predicted",
                      time_phrases := [] }]) ∧
    (∀ ti, StepTimeSvc.extract_all_times (stripPy step_text) = some [ti] →
        StepTimeSvc.parse_step_times predict step_text
          = some [{ text := stripPy step_text, duration_minutes := some ti.minutes,
                      original_text := stripPy step_text, confidence := "extracted",
                      time_phrases := [ti.phrase] }]) ∧
    (∀ exts, StepTimeSvc.extract_all_times (stripPy step_text) = some exts →
        2 ≤ exts.length →
        StepTimeSvc.parse_step_times predict step_text
            = some (StepTimeSvc.split_step_by_times (stripPy step_text) exts) ∧
        (StepTimeSvc.split_step_by_times (stripPy step_text) exts).length = exts.length ∧
        (∀ p ∈ StepTimeSvc.split_step_by_times (stripPy step_text) exts,
            p.confidence = "extracted") ∧
        (StepTimeSvc.split_step_by_times (stripPy step_text) exts).map ParsedStep.text
            = (exts.enum).map
                (fun q => StepTimeSvc.contextTextOf (stripPy step_text) q.1 q.2) ∧
        (StepTimeSvc.split_step_by_times (stripPy step_text) exts).map
              ParsedStep.duration_minutes
            = exts.map (fun ti => some ti.minutes)) := by
  refine ⟨?_, ?_, ?_, ?_⟩
  · intro h
    unfold StepTimeSvc.parse_step_times
    dsimp only
    rw [h]
  · intro h
    unfold StepTimeSvc.parse_step_times
    dsimp only
    rw [h]
    rfl
  · intro ti h
    unfold StepTimeSvc.parse_step_times
    dsimp only
    rw [h]
    rfl
  · intro exts h hlen
    rcases exts with _ | ⟨a, _ | ⟨b, rest⟩⟩
    · simp at hlen
    · simp at hlen
    · refine ⟨?_, ?_, ?_, ?_, ?_⟩
      · unfold StepTimeSvc.parse_step_times
        dsimp only
        simp only [h]
        rw [if_neg (by simp), if_neg (by simp)]
      · simp [StepTimeSvc.split_step_by_times]
      · intro p hp
        unfold StepTimeSvc.split_step_by_times at hp
        simp only [List.mem_map] at hp
        obtain ⟨q, -, rfl⟩ := hp
        rfl
      · unfold StepTimeSvc.split_step_by_times
        rw [List.map_map]
        rfl
      · unfold StepTimeSvc.split_step_by_times
        rw [List.map_map]
        have : (a :: b :: rest).map (fun ti => some ti.minutes)
            = ((a :: b :: rest).enum).map (fun q => some q.2.minutes) := by
          rw [← List.enum_map_snd (a :: b :: rest), List.map_map]
          simp
        rw [this]
        rfl

end MealTime

namespace MealTime

section ConcreteEval

attribute [local semireducible] Rat.add Rat.sub Rat.mul Rat.inv

/-- C2: the duration extractor returns exactly the stated minutes on the
six table inputs — 10, 60, 90, 12 (average 12.5 truncated), 1 (90 seconds
with the 1-minute floor), and no match for a negative duration. -/
theorem spec_c2_extraction_table :
    (StepSplitter.extract_time_from_text "Cook for 10 minutes").1 = some 10 ∧
    (StepSplitter.extract_time_from_text "Bake for 1 hour").1 = some 60 ∧
    (StepSplitter.extract_time_from_text "Bake for 1 hour and 30 minutes").1 = some 90 ∧
    (StepSplitter.extract_time_from_text "Cook for 10-15 minutes").1 = some 12 ∧
    (StepSplitter.extract_time_from_text "Cook for 90 seconds").1 = some 1 ∧
    StepSplitter.extract_time_from_text "Cook for -5 minutes" = (none, none) :=
  ⟨by decide, by decide, by decide, by decide, by decide, by decide⟩

/-- C3 (counterexample): on the single instruction `Cook for 0 minutes`,
`split_recipe_steps` outputs the duration `0`, so it is not the case that
every output duration is at least 1 minute. -/
theorem spec_c3_counterexample :
    StepSplitter.split_recipe_steps ["Cook for 0 minutes"] = (["Cook for 0 minutes"], [0]) ∧
    ¬ ∀ d ∈ (StepSplitter.split_recipe_steps ["Cook for 0 minutes"]).2, 1 ≤ d := by
  refine ⟨by decide, ?_⟩
  intro hall
  have h0 := hall 0 (by decide)
  omega

/-- Witness for C1 at a concrete recipe and target. -/
theorem spec_c1_backward_fill_witness :
    ((TimelineService.process_single_recipe recipeW 100 0).getLast?).map
        TimelineStep.end_time = some 100 :=
  (spec_c1_backward_fill recipeW 100 0 (by decide) (by decide)).2.2.2.1

/-- Witness for C4 at a concrete recipe list and target. -/
theorem spec_c4_merge_witness :
    ((TimelineService.generate_timeline [recipeW] 100).get? 0).map TimelineStep.order
      = some 1 := by
  have hcomp := (spec_c4_merge [recipeW] 100).2.2.2.1
  cases hval : (TimelineService.generate_timeline [recipeW] 100).get? 0 with
  | none => exact absurd hval (by decide)
  | some s => simp [hcomp 0 s hval]

/-- C5 (counterexample): a recipe with explicit `total_time = 10` but step
durations summing to 100 is judged feasible with 50 minutes available,
although the sum of its step durations exceeds the available minutes. -/
theorem spec_c5_counterexample :
    (50 : ℚ) - 0 < (recipeC5.step_times.sum : ℚ) ∧
    (ValidationService.validate_timeline_feasibility [recipeC5] 50 0).feasible = true :=
  ⟨by norm_num [recipeC5], by decide⟩

/-- Witness for the amended C5 at a concrete recipe list and times. -/
theorem spec_c5_amended_witness :
    (ValidationService.validate_timeline_feasibility [recipeW5] 20 0).feasible = false :=
  (spec_c5_amended [recipeW5] 20 0 recipeW5 (by decide) (by decide) (by decide) (by decide)
    (by norm_num [recipeW5])).1

/-- Witness for C6 at two concrete overlapping active cooking steps from
different recipes. -/
theorem spec_c6_safety_witness :
    TimelineService.TimelineIssue.overlapping_active_steps "P" "Q"
      ∈ (TimelineService.validate_timeline [stepP, stepQ] 1).issues :=
  ((spec_c6_safety [stepP, stepQ] 1 (by decide)).2.2 "P" "Q").mpr
    ⟨stepP, stepQ, List.Sublist.refl _, rfl, rfl, rfl, rfl, by decide, by decide,
      by decide, rfl, rfl⟩

/-- Witness for C7 at concrete target and current times. -/
theorem spec_c7_target_time_witness :
    ValidationService.TargetIssue.very_tight_timing
      ∈ (ValidationService.validate_target_time 5 0).warnings := by
  have h := (spec_c7_target_time 5 0).2.2.2 (by norm_num)
  exact h.2.2.1.mpr (by norm_num [Config.MIN_PREP_TIME])

/-- C8 (counterexample): a build containing a recipe whose steps/durations
lengths differ produces a timeline with that recipe silently omitted and
no error — it does not fail fast. -/
theorem spec_c8_counterexample :
    recipeBad.steps.length ≠ recipeBad.step_times.length ∧
    (TimelineService.generate_timeline [recipeBad, recipeGood] 60).map
        (fun s => s.recipe_name) = ["Good"] :=
  ⟨by decide, by decide⟩

/-- Witness for the amended C8 at a concrete mismatched recipe. -/
theorem spec_c8_amended_witness :
    TimelineService.process_single_recipe recipeBad 60 0 = [] :=
  spec_c8_amended recipeBad 60 0 (by decide)

/-- Witness for C9 at concrete instructions covering the exception, the
zero-mention and the multi-mention branches: a zero-denominator fraction
mention makes the resolver raise (`none`), while ordinary instructions
take the predicted or per-mention paths. -/
theorem spec_c9_resolver_witness :
    StepTimeSvc.parse_step_times (fun _ => 7) "stir 1/0 minutes" = none ∧
    StepTimeSvc.parse_step_times (fun _ => 7) "Mix the bowl"
      = some [{ text := "Mix the bowl", duration_minutes := some 7,
                  original_text := "Mix the bowl", confidence := "predicted",
                  time_phrases := [] }] ∧
    (StepTimeSvc.parse_step_times (fun _ => 7) "Boil 2 minutes then rest 4 minutes").map
        List.length = some 2 := by
  refine ⟨?_, ?_, ?_⟩
  · exact (spec_c9_resolver (fun _ => 7) "stir 1/0 minutes").1 (by decide)
  · exact (spec_c9_resolver (fun _ => 7) "Mix the bowl").2.1 (by decide)
  · cases hval : StepTimeSvc.extract_all_times
        (stripPy "Boil 2 minutes then rest 4 minutes") with
    | none => exact absurd hval (by decide)
    | some exts =>
      have hlen : 2 ≤ exts.length := by
        rw [show exts = (StepTimeSvc.extract_all_times
            (stripPy "Boil 2 minutes then rest 4 minutes")).getD [] by rw [hval]; rfl]
        decide
      have h := (spec_c9_resolver
          (fun _ => 7) "Boil 2 minutes then rest 4 minutes").2.2.2 exts hval hlen
      rw [h.1]
      simp only [Option.map_some']
      rw [h.2.1]
      rw [show exts = (StepTimeSvc.extract_all_times
          (stripPy "Boil 2 minutes then rest 4 minutes")).getD [] by rw [hval]; rfl]
      decide

end ConcreteEval

end MealTime
